import Mathlib

/-!
Shallow embedding of the theater lottery allocation program (src/index.js).

The program matches applicants ("persons") holding ranked preference lists to
capacity-limited theaters.  JavaScript `Set` objects are modelled as duplicate
free lists in insertion order (`jsSetAdd`), JavaScript 32-bit integer bitwise
arithmetic of the xorshift generator is modelled on `Nat` values below `2^32`
with explicit conversions, and the mutable person/theater objects shared
through `theaterMap` and the fairness buckets are modelled as an explicit
state (`LState`) keyed by id: every mutation site of the source rewrites the
entry of the matching id.  This is faithful to the source whenever person ids
and theater ids are unique, which the program's input validation
(`loadAndValidateTheaters` / `loadAndValidateOrders`) enforces by aborting on
duplicates; theorems that need it take the corresponding `Nodup` hypotheses.
`Math.floor(random() * (i + 1))` is modelled as `w * (i + 1) / 2^32`, which is
exactly the double-precision result for every list length the program can see
(the product stays below `2^53`).
-/

/-- One applicant record: id, ranked preferences (entry `none` models the
`null` the source stores for a missing column or empty string), and the
`assigned` set of won theater ids. -/
structure Person where
  id : String
  prefs : List (Option String)
  assigned : List String
deriving Repr, DecidableEq

/-- One theater record: id, time slot, play, capacity (`parseInt` result) and
the `assigned` set of winner ids. -/
structure Theater where
  id : String
  timeSlot : String
  play : String
  capacity : Int
  assigned : List String
deriving Repr, DecidableEq

/-- `Set.prototype.add`: append the element unless already present. -/
def jsSetAdd (l : List String) (x : String) : List String :=
  if x ∈ l then l else l ++ [x]

/-- State of the xorshift generator of `createSeededRandom`: four 32-bit
words, stored as the unsigned bit patterns (`Nat` below `2^32`). -/
structure XsState where
  x : Nat
  y : Nat
  z : Nat
  w : Nat
deriving Repr, DecidableEq

/-- JavaScript `<< k` on a 32-bit pattern. -/
def shl32 (n k : Nat) : Nat := (n * 2 ^ k) % 2 ^ 32

/-- JavaScript signed `>> k` on a 32-bit pattern (arithmetic shift). -/
def sar32 (n k : Nat) : Nat :=
  if n < 2 ^ 31 then n / 2 ^ k else n / 2 ^ k + (2 ^ 32 - 2 ^ (32 - k))

/-- Initial generator state of `createSeededRandom(seed)`; the seed word holds
`ToUint32(seed)`, the bit pattern the first `^` / `>>` coerces it to. -/
def xsInit (seed : Int) : XsState :=
  { x := 123456789, y := 362436069, z := 521288629,
    w := (seed % (2 ^ 32 : Int)).toNat }

/-- One call of the generator: `t = x ^ (x << 11); x = y; y = z; z = w;
w = w ^ (w >> 19) ^ (t ^ (t >> 8))`. -/
def xsStep (s : XsState) : XsState :=
  let t := Nat.xor s.x (shl32 s.x 11)
  { x := s.y, y := s.z, z := s.w,
    w := Nat.xor (Nat.xor s.w (sar32 s.w 19)) (Nat.xor t (sar32 t 8)) }

/-- `Math.floor(random() * m)`: the generator returns `(w >>> 0) / 2^32`,
so the floored product is `w * m / 2^32` (exact in doubles for `m ≤ 2^21`). -/
def randFloor (g : XsState) (m : Nat) : Nat × XsState :=
  let g' := xsStep g
  (g'.w * m / 4294967296, g')

/-- Destructuring swap `[a[i], a[j]] = [a[j], a[i]]`; out-of-range indices
leave the list unchanged (they never occur in reachable states). -/
def listSwap {α : Type} (l : List α) (i j : Nat) : List α :=
  match l.get? i, l.get? j with
  | some a, some b => (l.set i b).set j a
  | _, _ => l

/-- The Fisher–Yates loop of `createShuffledArray`, counting `i` down to 1. -/
def fyLoop {α : Type} (l : List α) (i : Nat) (g : XsState) : List α × XsState :=
  match i with
  | 0 => (l, g)
  | i' + 1 =>
    let jg := randFloor g (i' + 2)
    fyLoop (listSwap l (i' + 1) jg.1) i' jg.2

/-- `createShuffledArray(array, random)`: Fisher–Yates shuffle of a copy. -/
def createShuffledArray {α : Type} (l : List α) (g : XsState) : List α × XsState :=
  fyLoop l (l.length - 1) g

/-- `pickWinners(candidates, seats, random)`: everybody wins when the
candidates fit, otherwise the first `seats` elements of a shuffle. -/
def pickWinners {α : Type} (c : List α) (seats : Int) (g : XsState) : List α × XsState :=
  if (c.length : Int) ≤ seats then (c, g)
  else
    let sg := createShuffledArray c g
    (sg.1.take seats.toNat, sg.2)

/-- `hasConflict(person, theater, theaterMap)`: some already-won theater
shares the time slot or the play with the candidate theater. -/
def hasConflict (p : Person) (th : Theater) (ths : List Theater) : Bool :=
  p.assigned.any (fun tid =>
    match ths.find? (fun t => t.id == tid) with
    | some t => t.timeSlot == th.timeSlot || t.play == th.play
    | none => false)

/-- Insertion step for sorting the win-count keys ascending. -/
def insNat (a : Nat) : List Nat → List Nat
  | [] => [a]
  | b :: l => if a ≤ b then a :: b :: l else b :: insNat a l

/-- `[...groups.keys()].sort((a, b) => a - b)`. -/
def sortNats (l : List Nat) : List Nat := l.foldr insNat []

/-- Ids of the persons whose current win count is `c`, in list order: the
bucket `groupByAssignedCount` builds for key `c`. -/
def bucketIds (ps : List Person) (c : Nat) : List String :=
  (ps.filter (fun p => p.assigned.length == c)).map (fun p => p.id)

/-- `groupByAssignedCount` followed by the ascending key sort: the list of
(win count, bucket) pairs an engine pass walks. -/
def snapshotGroups (ps : List Person) : List (Nat × List String) :=
  (sortNats ((ps.map (fun p => p.assigned.length)).dedup)).map
    (fun c => (c, bucketIds ps c))

/-- The mutable program state: the `persons` array, the `theaters` array
(also the backing of `theaterMap`), and the generator state. -/
structure LState where
  persons : List Person
  theaters : List Theater
  g : XsState
deriving Repr, DecidableEq

/-- `person.assigned.add(theaterId)` on the person object with id `pid`. -/
def updatePerson (ps : List Person) (pid tid : String) : List Person :=
  ps.map (fun p => if p.id == pid then { p with assigned := jsSetAdd p.assigned tid } else p)

/-- `theater.assigned.add(personId)` on the theater object with id `tid`. -/
def updateTheater (ths : List Theater) (tid pid : String) : List Theater :=
  ths.map (fun th => if th.id == tid then { th with assigned := jsSetAdd th.assigned pid } else th)

/-- One iteration of the `assignWinners` loop: register winner `pid` on
theater `tid` on both sides. -/
def assignOne (s : LState) (tid pid : String) : LState :=
  { persons := updatePerson s.persons pid tid,
    theaters := updateTheater s.theaters tid pid,
    g := s.g }

/-- `assignWinners(winners, theater)`. -/
def assignWinners (s : LState) (tid : String) (ws : List String) : LState :=
  ws.foldl (fun s' pid => assignOne s' tid pid) s

/-- `theaterMap.get` / iteration over the `theaters` array by id. -/
def findTheater (ths : List Theater) (tid : String) : Option Theater :=
  ths.find? (fun t => t.id == tid)

/-- Look up a person object by id. -/
def findPerson (ps : List Person) (pid : String) : Option Person :=
  ps.find? (fun p => p.id == pid)

/-- The candidate filter of `runInitialLottery`: bucket members that list this
theater at the current rank, do not hold it yet, and have no conflict. -/
def initCandidates (ps : List Person) (ths : List Theater) (th : Theater)
    (rank : Nat) (ids : List String) : List String :=
  ids.filter (fun pid =>
    match findPerson ps pid with
    | some p =>
      (p.prefs.getD rank none == some th.id) && !(p.assigned.contains th.id)
        && !(hasConflict p th ths)
    | none => false)

/-- The inner `for (const count of counts)` loop of `runInitialLottery` for
one theater: walk the buckets while seats remain. -/
def initCountLoop (rank : Nat) (th : Theater) :
    List (Nat × List String) → Int → LState → LState
  | [], _, s => s
  | b :: rest, seats, s =>
    if seats ≤ 0 then s
    else
      let cs := initCandidates s.persons s.theaters th rank b.2
      if cs.isEmpty then initCountLoop rank th rest seats s
      else
        let pw := pickWinners cs seats s.g
        let s' := assignWinners { s with g := pw.2 } th.id pw.1
        initCountLoop rank th rest (seats - pw.1.length) s'

/-- One theater of a round: compute the remaining seats, skip a full theater,
otherwise run the bucket loop. -/
def doInitTheater (rank : Nat) (snapshot : List (Nat × List String))
    (s : LState) (tid : String) : LState :=
  match findTheater s.theaters tid with
  | none => s
  | some th =>
    let seats : Int := th.capacity - th.assigned.length
    if seats ≤ 0 then s
    else initCountLoop rank th snapshot seats s

/-- One rank round: one fairness snapshot of all persons, then every theater
in input order. -/
def doInitRound (rank : Nat) (s : LState) : LState :=
  (s.theaters.map (fun th => th.id)).foldl
    (doInitTheater rank (snapshotGroups s.persons)) s

/-- `theaters.every((theater) => theater.assigned.size >= theater.capacity)`. -/
def allFull (s : LState) : Bool :=
  s.theaters.all (fun th => th.capacity ≤ (th.assigned.length : Int))

/-- The rank loop of `runInitialLottery`, stopping early once every theater
is full. -/
def initLoopAux : Nat → Nat → LState → LState
  | _, 0, s => s
  | rank, r + 1, s =>
    if allFull s then s else initLoopAux (rank + 1) r (doInitRound rank s)

/-- `runInitialLottery(persons, theaters, theaterMap, maxOrders, random)`. -/
def runInitialLottery (maxOrders : Nat) (s : LState) : LState :=
  initLoopAux 0 maxOrders s

/-- The vacancy eligibility filter: only the conflict check. -/
def vacCandidates (ps : List Person) (ths : List Theater) (th : Theater)
    (ids : List String) : List String :=
  ids.filter (fun pid =>
    match findPerson ps pid with
    | some p => !(hasConflict p th ths)
    | none => false)

/-- The inner bucket loop of `runVacancyLottery` for one theater. -/
def vacCountLoop (th : Theater) :
    List (Nat × List String) → Int → LState → LState
  | [], _, s => s
  | b :: rest, seats, s =>
    if seats ≤ 0 then s
    else
      let es := vacCandidates s.persons s.theaters th b.2
      if es.isEmpty then vacCountLoop th rest seats s
      else
        let pw := pickWinners es seats s.g
        let s' := assignWinners { s with g := pw.2 } th.id pw.1
        vacCountLoop th rest (seats - pw.1.length) s'

/-- `groupByAssignedCount(candidates)` of the vacancy pass: the opt-in
persons (filter by id membership, as the source's `Set.has`), grouped by
their current win count. -/
def vacSnapshot (vIds : List String) (ps : List Person) : List (Nat × List String) :=
  snapshotGroups (ps.filter (fun p => vIds.contains p.id))

/-- One theater of the vacancy pass: seats, full-skip, fresh grouping of the
opt-in candidates, bucket loop. -/
def doVacTheater (vIds : List String) (s : LState) (tid : String) : LState :=
  match findTheater s.theaters tid with
  | none => s
  | some th =>
    let seats : Int := th.capacity - th.assigned.length
    if seats ≤ 0 then s
    else vacCountLoop th (vacSnapshot vIds s.persons) seats s

/-- `runVacancyLottery(persons, theaters, theaterMap, random)`, with the
opt-in id list (the lines of `vacancy_candidates.txt`; a missing optional
file yields the empty list) passed explicitly.  An empty list returns at
once. -/
def runVacancyLottery (vacancyIds : List String) (s : LState) : LState :=
  if vacancyIds.isEmpty then s
  else (s.theaters.map (fun th => th.id)).foldl (doVacTheater vacancyIds) s

/-- The settings read from `settings.json`; `seed = none` models an absent
key. -/
structure Config where
  maxOrders : Nat
  enableVacancy : Bool
  seed : Option Int
deriving Repr, DecidableEq

/-- A row of `theaters.tsv` after parsing: id, time slot, play, capacity. -/
structure TheaterRec where
  id : String
  timeSlot : String
  play : String
  capacity : Int
deriving Repr, DecidableEq

/-- `seed || defaultSeed` of `main`: JavaScript `||` takes the default both
when the key is absent and when the supplied number is falsy, i.e. `0`. -/
def resolvedSeed (cfg : Config) (now : Int) : Int :=
  match cfg.seed with
  | none => now
  | some s => if s = 0 then now else s

/-- Person construction of `main`: `prefs[i] = cols[i + 1] || null`, so a
missing column and the empty string both become `none`. -/
def mkPersons (orders : List (List String)) (maxOrders : Nat) : List Person :=
  orders.map (fun cols =>
    { id := cols.getD 0 "",
      prefs := (List.range maxOrders).map (fun i =>
        match cols.getD (i + 1) "" with
        | "" => none
        | v => some v),
      assigned := [] })

/-- Theater construction of `main` from parsed records. -/
def mkTheaters (recs : List TheaterRec) : List Theater :=
  recs.map (fun r =>
    { id := r.id, timeSlot := r.timeSlot, play := r.play,
      capacity := r.capacity, assigned := [] })

/-- The state `main` hands to `runInitialLottery`: fresh persons and
theaters, generator seeded with `seed || Date.now()` (`now` is the
`Date.now()` sample). -/
def initialState (cfg : Config) (orders : List (List String))
    (recs : List TheaterRec) (now : Int) : LState :=
  { persons := mkPersons orders cfg.maxOrders,
    theaters := mkTheaters recs,
    g := xsInit (resolvedSeed cfg now) }

/-- The allocation part of `main`: initial lottery, then the vacancy lottery
exactly when `enableVacancy` holds. -/
def mainModel (cfg : Config) (orders : List (List String))
    (recs : List TheaterRec) (vacancyIds : List String) (now : Int) : LState :=
  let s1 := runInitialLottery cfg.maxOrders (initialState cfg orders recs now)
  if cfg.enableVacancy then runVacancyLottery vacancyIds s1 else s1

/-- `undefined` and `""` are falsy, every other string truthy. -/
def jsTruthyOpt (v : Option String) : Bool :=
  match v with
  | none => false
  | some s => !(s == "")

/-- The foreign-key guard of `loadAndValidateOrders` over all orders rows:
`theaterId && theaterId === "" && !theaterIdSet.has(theaterId)` for each
preference column `1 .. maxOrders`; `true` would abort the run with the
"unknown theater id" error. -/
def unknownIdAbort (orders : List (List String)) (maxOrders : Nat)
    (theaterIdSet : List String) : Bool :=
  orders.any (fun cols =>
    (List.range maxOrders).any (fun i =>
      let v := cols.get? (i + 1)
      jsTruthyOpt v && (v == some "") && !(theaterIdSet.contains (v.getD ""))))

/-! ### Basic facts about the list-level primitives -/

theorem mem_jsSetAdd {l : List String} {x y : String} :
    x ∈ jsSetAdd l y ↔ x ∈ l ∨ x = y := by
  by_cases h : y ∈ l
  · simp only [jsSetAdd, if_pos h]
    constructor
    · exact fun hx => Or.inl hx
    · rintro (hx | rfl) <;> [exact hx; exact h]
  · simp [jsSetAdd, if_neg h]

theorem jsSetAdd_of_mem {l : List String} {y : String} (h : y ∈ l) :
    jsSetAdd l y = l := by simp [jsSetAdd, if_pos h]

theorem jsSetAdd_of_not_mem {l : List String} {y : String} (h : y ∉ l) :
    jsSetAdd l y = l ++ [y] := by simp [jsSetAdd, if_neg h]

theorem length_jsSetAdd_le (l : List String) (y : String) :
    (jsSetAdd l y).length ≤ l.length + 1 := by
  by_cases h : y ∈ l
  · rw [jsSetAdd_of_mem h]; omega
  · rw [jsSetAdd_of_not_mem h]; simp

theorem contains_true_iff {l : List String} {a : String} :
    l.contains a = true ↔ a ∈ l := by
  simp [List.contains]

theorem cons_set_perm {α : Type} :
    ∀ (t : List α) (k : Nat) (a b : α), t.get? k = some b →
      List.Perm (b :: t.set k a) (a :: t) := by
  intro t
  induction t with
  | nil => intro k a b h; simp at h
  | cons c t ih =>
    intro k a b h
    cases k with
    | zero =>
      simp only [List.get?_cons_zero, Option.some.injEq] at h
      subst h
      exact List.Perm.swap _ _ _
    | succ k =>
      simp only [List.get?_cons_succ] at h
      have hp := ih k a b h
      have e1 : (c :: t).set (k + 1) a = c :: t.set k a := rfl
      rw [e1]
      have h2 : List.Perm (b :: c :: t.set k a) (c :: b :: t.set k a) :=
        List.Perm.swap c b _
      have h3 : List.Perm (c :: b :: t.set k a) (c :: a :: t) :=
        List.Perm.cons c hp
      have h4 : List.Perm (c :: a :: t) (a :: c :: t) := List.Perm.swap a c t
      exact (h2.trans h3).trans h4

theorem set_set_perm {α : Type} :
    ∀ (l : List α) (i j : Nat) (a b : α), l.get? i = some a → l.get? j = some b →
      List.Perm ((l.set i b).set j a) l := by
  intro l
  induction l with
  | nil => intro i j a b hi; simp at hi
  | cons c t ih =>
    intro i j a b hi hj
    cases i with
    | zero =>
      cases j with
      | zero =>
        simp only [List.get?_cons_zero, Option.some.injEq] at hi hj
        subst hi; subst hj; simp
      | succ j =>
        simp only [List.get?_cons_zero, Option.some.injEq] at hi
        simp only [List.get?_cons_succ] at hj
        subst hi
        simpa using cons_set_perm t j c b hj
    | succ i =>
      cases j with
      | zero =>
        simp only [List.get?_cons_succ] at hi
        simp only [List.get?_cons_zero, Option.some.injEq] at hj
        subst hj
        simpa using cons_set_perm t i c a hi
      | succ j =>
        simp only [List.get?_cons_succ] at hi hj
        simpa using List.Perm.cons c (ih i j a b hi hj)

theorem listSwap_perm {α : Type} (l : List α) (i j : Nat) :
    List.Perm (listSwap l i j) l := by
  unfold listSwap
  cases hi : l.get? i with
  | none => cases l.get? j <;> exact List.Perm.refl l
  | some a =>
    cases hj : l.get? j with
    | none => exact List.Perm.refl l
    | some b => exact set_set_perm l i j a b hi hj

theorem fyLoop_perm {α : Type} :
    ∀ (i : Nat) (l : List α) (g : XsState), List.Perm (fyLoop l i g).1 l := by
  intro i
  induction i with
  | zero => intro l g; simp [fyLoop]
  | succ i ih =>
    intro l g
    simp only [fyLoop]
    exact (ih _ _).trans (listSwap_perm _ _ _)

theorem createShuffledArray_perm {α : Type} (l : List α) (g : XsState) :
    List.Perm (createShuffledArray l g).1 l :=
  fyLoop_perm _ l g

theorem pickWinners_all {α : Type} {c : List α} {seats : Int} (g : XsState)
    (h : (c.length : Int) ≤ seats) : pickWinners c seats g = (c, g) := by
  simp [pickWinners, h]

theorem pickWinners_mem {α : Type} {c : List α} {seats : Int} {g : XsState}
    {x : α} (h : x ∈ (pickWinners c seats g).1) : x ∈ c := by
  unfold pickWinners at h
  split at h
  · exact h
  · exact (createShuffledArray_perm c g).mem_iff.mp (List.mem_of_mem_take h)

theorem pickWinners_subset {α : Type} (c : List α) (seats : Int) (g : XsState) :
    ∀ x ∈ (pickWinners c seats g).1, x ∈ c :=
  fun _ h => pickWinners_mem h

theorem pickWinners_len_le {α : Type} (c : List α) {seats : Int} (g : XsState)
    (h : 0 ≤ seats) : ((pickWinners c seats g).1.length : Int) ≤ seats := by
  unfold pickWinners
  split
  · exact (by assumption)
  · simp only [List.length_take]
    have h2 : min seats.toNat (createShuffledArray c g).1.length ≤ seats.toNat :=
      Nat.min_le_left _ _
    have h3 : ((min seats.toNat (createShuffledArray c g).1.length : Nat) : Int)
        ≤ ((seats.toNat : Nat) : Int) := Int.ofNat_le.mpr h2
    rwa [Int.toNat_of_nonneg h] at h3

theorem pickWinners_nodup {α : Type} {c : List α} (seats : Int) (g : XsState)
    (h : c.Nodup) : (pickWinners c seats g).1.Nodup := by
  unfold pickWinners
  split
  · exact h
  · exact ((createShuffledArray_perm c g).nodup_iff.mpr h).sublist
      (List.take_sublist _ _)

/-! ### Signatures, lookups and generic preservation over the engines -/

/-- The immutable fields of a theater object. -/
def tsigF (th : Theater) : String × String × String × Int :=
  (th.id, th.timeSlot, th.play, th.capacity)

/-- The immutable fields of a person object. -/
def psigF (p : Person) : String × List (Option String) := (p.id, p.prefs)

/-- The pair of mutual-exclusion keys of a theater. -/
def thKeys (th : Theater) : String × String := (th.timeSlot, th.play)

/-- The exclusion keys `theaterMap` yields for an id. -/
def lookKeys (ths : List Theater) (tid : String) : Option (String × String) :=
  (findTheater ths tid).map thKeys

theorem foldl_pres {β : Type} {P : LState → Prop} {f : LState → β → LState}
    (H : ∀ s b, P s → P (f s b)) :
    ∀ (l : List β) (s : LState), P s → P (l.foldl f s) := by
  intro l
  induction l with
  | nil => intro s h; simpa using h
  | cons b t ih => intro s h; exact ih _ (H s b h)

/-- A state property closed under single-winner registration and under
replacing the generator state: such a property survives every engine. -/
def AssignClosed (P : LState → Prop) : Prop :=
  (∀ s tid pid, P s → P (assignOne s tid pid)) ∧
  (∀ s gn, P s → P { persons := s.persons, theaters := s.theaters, g := gn })

theorem pres_assignWinners {P : LState → Prop} (hP : AssignClosed P)
    (ws : List String) (s : LState) (tid : String) (h : P s) :
    P (assignWinners s tid ws) := by
  unfold assignWinners
  exact foldl_pres (fun s' pid h' => hP.1 s' tid pid h') ws s h

theorem pres_initCountLoop {P : LState → Prop} (hP : AssignClosed P) :
    ∀ (buckets : List (Nat × List String)) (rank : Nat) (th : Theater)
      (seats : Int) (s : LState), P s → P (initCountLoop rank th buckets seats s) := by
  intro buckets
  induction buckets with
  | nil => intro rank th seats s h; simpa [initCountLoop] using h
  | cons b rest ih =>
    intro rank th seats s h
    simp only [initCountLoop]
    split
    · exact h
    · split
      · exact ih rank th seats s h
      · exact ih rank th _ _ (pres_assignWinners hP _ _ _ (hP.2 s _ h))

theorem pres_doInitTheater {P : LState → Prop} (hP : AssignClosed P)
    (rank : Nat) (snapshot : List (Nat × List String)) (s : LState)
    (tid : String) (h : P s) : P (doInitTheater rank snapshot s tid) := by
  unfold doInitTheater
  cases findTheater s.theaters tid with
  | none => exact h
  | some th =>
    simp only
    split
    · exact h
    · exact pres_initCountLoop hP snapshot rank th _ s h

theorem pres_doInitRound {P : LState → Prop} (hP : AssignClosed P)
    (rank : Nat) (s : LState) (h : P s) : P (doInitRound rank s) := by
  unfold doInitRound
  exact foldl_pres (fun s' tid h' => pres_doInitTheater hP rank _ s' tid h') _ s h

theorem pres_initLoopAux {P : LState → Prop} (hP : AssignClosed P) :
    ∀ (r rank : Nat) (s : LState), P s → P (initLoopAux rank r s) := by
  intro r
  induction r with
  | zero => intro rank s h; simpa [initLoopAux] using h
  | succ r ih =>
    intro rank s h
    simp only [initLoopAux]
    split
    · exact h
    · exact ih _ _ (pres_doInitRound hP rank s h)

theorem pres_runInitialLottery {P : LState → Prop} (hP : AssignClosed P)
    (m : Nat) (s : LState) (h : P s) : P (runInitialLottery m s) :=
  pres_initLoopAux hP m 0 s h

theorem pres_vacCountLoop {P : LState → Prop} (hP : AssignClosed P) :
    ∀ (buckets : List (Nat × List String)) (th : Theater) (seats : Int)
      (s : LState), P s → P (vacCountLoop th buckets seats s) := by
  intro buckets
  induction buckets with
  | nil => intro th seats s h; simpa [vacCountLoop] using h
  | cons b rest ih =>
    intro th seats s h
    simp only [vacCountLoop]
    split
    · exact h
    · split
      · exact ih th seats s h
      · exact ih th _ _ (pres_assignWinners hP _ _ _ (hP.2 s _ h))

theorem pres_doVacTheater {P : LState → Prop} (hP : AssignClosed P)
    (vIds : List String) (s : LState) (tid : String) (h : P s) :
    P (doVacTheater vIds s tid) := by
  unfold doVacTheater
  cases findTheater s.theaters tid with
  | none => exact h
  | some th =>
    simp only
    split
    · exact h
    · exact pres_vacCountLoop hP _ th _ s h

theorem pres_runVacancyLottery {P : LState → Prop} (hP : AssignClosed P)
    (v : List String) (s : LState) (h : P s) : P (runVacancyLottery v s) := by
  unfold runVacancyLottery
  split
  · exact h
  · exact foldl_pres (fun s' tid h' => pres_doVacTheater hP v s' tid h') _ s h

theorem updateTheater_tsig (ths : List Theater) (tid pid : String) :
    (updateTheater ths tid pid).map tsigF = ths.map tsigF := by
  unfold updateTheater
  rw [List.map_map]
  apply List.map_congr_left
  intro th _
  by_cases h : th.id == tid <;> simp [tsigF, h, Function.comp]

theorem updatePerson_psig (ps : List Person) (pid tid : String) :
    (updatePerson ps pid tid).map psigF = ps.map psigF := by
  unfold updatePerson
  rw [List.map_map]
  apply List.map_congr_left
  intro p _
  by_cases h : p.id == pid <;> simp [psigF, h, Function.comp]

theorem sig_closed (T0 : List (String × String × String × Int))
    (P0 : List (String × List (Option String))) :
    AssignClosed (fun s => s.theaters.map tsigF = T0 ∧ s.persons.map psigF = P0) := by
  constructor
  · intro s tid pid h
    exact ⟨(updateTheater_tsig s.theaters tid pid).trans h.1,
      (updatePerson_psig s.persons pid tid).trans h.2⟩
  · intro s gn h
    exact h

theorem runInitialLottery_sigs (m : Nat) (s : LState) :
    (runInitialLottery m s).theaters.map tsigF = s.theaters.map tsigF ∧
      (runInitialLottery m s).persons.map psigF = s.persons.map psigF :=
  pres_runInitialLottery (sig_closed _ _) m s ⟨rfl, rfl⟩

theorem runVacancyLottery_sigs (v : List String) (s : LState) :
    (runVacancyLottery v s).theaters.map tsigF = s.theaters.map tsigF ∧
      (runVacancyLottery v s).persons.map psigF = s.persons.map psigF :=
  pres_runVacancyLottery (sig_closed _ _) v s ⟨rfl, rfl⟩

theorem assignWinners_sigs (s : LState) (tid : String) (ws : List String) :
    (assignWinners s tid ws).theaters.map tsigF = s.theaters.map tsigF ∧
      (assignWinners s tid ws).persons.map psigF = s.persons.map psigF :=
  pres_assignWinners (sig_closed _ _) ws s tid ⟨rfl, rfl⟩

theorem initCountLoop_sigs (rank : Nat) (th : Theater)
    (buckets : List (Nat × List String)) (seats : Int) (s : LState) :
    (initCountLoop rank th buckets seats s).theaters.map tsigF = s.theaters.map tsigF ∧
      (initCountLoop rank th buckets seats s).persons.map psigF = s.persons.map psigF :=
  pres_initCountLoop (sig_closed _ _) buckets rank th seats s ⟨rfl, rfl⟩

theorem vacCountLoop_sigs (th : Theater) (buckets : List (Nat × List String))
    (seats : Int) (s : LState) :
    (vacCountLoop th buckets seats s).theaters.map tsigF = s.theaters.map tsigF ∧
      (vacCountLoop th buckets seats s).persons.map psigF = s.persons.map psigF :=
  pres_vacCountLoop (sig_closed _ _) buckets th seats s ⟨rfl, rfl⟩

theorem pid_map_eq_of_psig {ps ps' : List Person}
    (h : ps'.map psigF = ps.map psigF) :
    ps'.map (fun p => p.id) = ps.map (fun p => p.id) := by
  have h2 := congrArg (List.map Prod.fst) h
  simpa [List.map_map, psigF, Function.comp] using h2

theorem tid_map_eq_of_tsig {ths ths' : List Theater}
    (h : ths'.map tsigF = ths.map tsigF) :
    ths'.map (fun t => t.id) = ths.map (fun t => t.id) := by
  have h2 := congrArg (List.map Prod.fst) h
  simpa [List.map_map, tsigF, Function.comp] using h2

theorem lookKeys_congr :
    ∀ {ths ths' : List Theater}, ths'.map tsigF = ths.map tsigF →
      ∀ tid, lookKeys ths' tid = lookKeys ths tid := by
  intro ths
  induction ths with
  | nil =>
    intro ths' h tid
    simp only [List.map_nil, List.map_eq_nil_iff] at h
    subst h; rfl
  | cons t r ih =>
    intro ths' h tid
    cases ths' with
    | nil => simp at h
    | cons t' r' =>
      simp only [List.map_cons, List.cons.injEq] at h
      have hid : t'.id = t.id := by
        have h1 := h.1
        simp only [tsigF, Prod.mk.injEq] at h1
        exact h1.1
      have hks : thKeys t' = thKeys t := by
        have h1 := h.1
        simp only [tsigF, Prod.mk.injEq] at h1
        simp [thKeys, h1.2.1, h1.2.2.1]
      unfold lookKeys findTheater
      simp only [List.find?_cons]
      by_cases hc : (t.id == tid) = true
      · have hc2 : (t'.id == tid) = true := by rw [hid]; exact hc
        rw [hc, hc2]
        simp [hks]
      · have hc0 : (t.id == tid) = false := by simpa using hc
        have hc2 : (t'.id == tid) = false := by rw [hid]; exact hc0
        rw [hc0, hc2]
        exact ih h.2 tid

theorem forall₂_self {α : Type} {R : α → α → Prop} :
    ∀ {l : List α}, (∀ a ∈ l, R a a) → List.Forall₂ R l l := by
  intro l
  induction l with
  | nil => intro _; exact List.Forall₂.nil
  | cons a t ih =>
    intro h
    exact List.Forall₂.cons (h a (by simp)) (ih (fun x hx => h x (by simp [hx])))

theorem forall₂_comp {α β γ : Type} {R : α → β → Prop} {S : β → γ → Prop}
    {T : α → γ → Prop} (hc : ∀ a b c, R a b → S b c → T a c) :
    ∀ {l : List α} {m : List β} {n : List γ},
      List.Forall₂ R l m → List.Forall₂ S m n → List.Forall₂ T l n := by
  intro l m n h1
  induction h1 generalizing n with
  | nil => intro h2; cases h2; exact List.Forall₂.nil
  | cons hab h ih =>
    intro h2
    cases h2 with
    | cons hbc h' => exact List.Forall₂.cons (hc _ _ _ hab hbc) (ih h')

theorem forall₂_mem_right {α β : Type} {R : α → β → Prop} :
    ∀ {l : List α} {m : List β}, List.Forall₂ R l m → ∀ b ∈ m, ∃ a ∈ l, R a b := by
  intro l m h
  induction h with
  | nil => intro b hb; simp at hb
  | cons hab h ih =>
    intro b hb
    rcases List.mem_cons.mp hb with rfl | hb'
    · exact ⟨_, by simp, hab⟩
    · rcases ih b hb' with ⟨a, ha, hr⟩
      exact ⟨a, by simp [ha], hr⟩

theorem forall₂_map_right_self {α : Type} {R : α → α → Prop} {f : α → α} :
    ∀ {l : List α}, (∀ a ∈ l, R a (f a)) → List.Forall₂ R l (l.map f) := by
  intro l
  induction l with
  | nil => intro _; exact List.Forall₂.nil
  | cons a t ih =>
    intro h
    exact List.Forall₂.cons (h a (by simp)) (ih (fun x hx => h x (by simp [hx])))

theorem findPerson_some {ps : List Person} {pid : String} {p : Person}
    (h : findPerson ps pid = some p) : p ∈ ps ∧ p.id = pid := by
  refine ⟨List.mem_of_find?_eq_some h, ?_⟩
  have h2 := List.find?_some h
  simpa using h2

theorem findTheater_some {ths : List Theater} {tid : String} {th : Theater}
    (h : findTheater ths tid = some th) : th ∈ ths ∧ th.id = tid := by
  refine ⟨List.mem_of_find?_eq_some h, ?_⟩
  have h2 := List.find?_some h
  simpa using h2

theorem findPerson_of_nodup :
    ∀ {ps : List Person}, (ps.map (fun p => p.id)).Nodup →
      ∀ {p : Person}, p ∈ ps → findPerson ps p.id = some p := by
  intro ps
  induction ps with
  | nil => intro _ p hp; simp at hp
  | cons q t ih =>
    intro hnd p hp
    simp only [List.map_cons, List.nodup_cons] at hnd
    rcases List.mem_cons.mp hp with rfl | hpt
    · unfold findPerson
      simp only [List.find?_cons, beq_self_eq_true]
    · have hne : (q.id == p.id) = false := by
        have hq : q.id ≠ p.id := by
          intro hc
          exact hnd.1 (by rw [hc]; exact List.mem_map.mpr ⟨p, hpt, rfl⟩)
        simpa using hq
      unfold findPerson
      simp only [List.find?_cons]
      rw [hne]
      exact ih hnd.2 hpt

theorem nodup_id_inj {ths : List Theater}
    (hnd : (ths.map (fun t => t.id)).Nodup) {a b : Theater}
    (ha : a ∈ ths) (hb : b ∈ ths) (h : a.id = b.id) : a = b :=
  List.inj_on_of_nodup_map hnd ha hb h

/-! ### C6: bidirectional consistency of wins and holders -/

/-- A theater id is among a person's wins exactly when the person's id is
among the theater's holders. -/
def Bidir (s : LState) : Prop :=
  ∀ p ∈ s.persons, ∀ th ∈ s.theaters, (th.id ∈ p.assigned ↔ p.id ∈ th.assigned)

theorem bidir_closed : AssignClosed Bidir := by
  constructor
  · intro s tid pid h p' hp' th' hth'
    unfold assignOne updatePerson updateTheater at hp' hth'
    simp only at hp' hth'
    rcases List.mem_map.mp hp' with ⟨p, hp, rfl⟩
    rcases List.mem_map.mp hth' with ⟨th, hth, rfl⟩
    have hbase := h p hp th hth
    by_cases hpm : (p.id == pid) = true
    · by_cases htm : (th.id == tid) = true
      · have ep : p.id = pid := by simpa using hpm
        have et : th.id = tid := by simpa using htm
        simp only [hpm, htm, if_pos]
        simp [mem_jsSetAdd, ep, et]
      · have et : th.id ≠ tid := by simpa using htm
        simp only [hpm, htm, if_pos, if_neg, Bool.not_eq_true]
        simp only [mem_jsSetAdd]
        simp [et]
        exact hbase
    · by_cases htm : (th.id == tid) = true
      · have ep : p.id ≠ pid := by simpa using hpm
        simp only [hpm, htm, if_pos, if_neg, Bool.not_eq_true]
        simp only [mem_jsSetAdd]
        simp [ep]
        exact hbase
      · simp only [hpm, htm, if_neg, Bool.not_eq_true]
        exact hbase
  · intro s gn h
    exact h

/-- C6: throughout both allocation passes every registration updates a
person's `wins` and the theater's `holders` together, so membership stays
bidirectionally consistent: after any run of the initial lottery followed by
the vacancy lottery, `th.id ∈ p.assigned ↔ p.id ∈ th.assigned` for every
person and theater, provided it held initially. -/
theorem c6_bidirectional_consistency (m : Nat) (v : List String) (s : LState)
    (h : ∀ p ∈ s.persons, ∀ th ∈ s.theaters,
      (th.id ∈ p.assigned ↔ p.id ∈ th.assigned)) :
    ∀ p ∈ (runVacancyLottery v (runInitialLottery m s)).persons,
      ∀ th ∈ (runVacancyLottery v (runInitialLottery m s)).theaters,
        (th.id ∈ p.assigned ↔ p.id ∈ th.assigned) :=
  pres_runVacancyLottery bidir_closed v _
    (pres_runInitialLottery bidir_closed m s h)

/-- Witness for C6 on a concrete two-person, two-theater input. -/
theorem c6_bidirectional_consistency_witness :
    ((runVacancyLottery ["P2"] (runInitialLottery 2
        { persons := [{ id := "P1", prefs := [some "R1", some "R2"], assigned := [] },
                      { id := "P2", prefs := [some "R1", none], assigned := [] }],
          theaters := [{ id := "R1", timeSlot := "t1", play := "x", capacity := 1, assigned := [] },
                       { id := "R2", timeSlot := "t2", play := "y", capacity := 1, assigned := [] }],
          g := xsInit 7 })).persons.all (fun p =>
      (runVacancyLottery ["P2"] (runInitialLottery 2
        { persons := [{ id := "P1", prefs := [some "R1", some "R2"], assigned := [] },
                      { id := "P2", prefs := [some "R1", none], assigned := [] }],
          theaters := [{ id := "R1", timeSlot := "t1", play := "x", capacity := 1, assigned := [] },
                       { id := "R2", timeSlot := "t2", play := "y", capacity := 1, assigned := [] }],
          g := xsInit 7 })).theaters.all (fun th =>
        decide (th.id ∈ p.assigned ↔ p.id ∈ th.assigned)))) = true := by
  rw [List.all_eq_true]
  intro p hp
  rw [List.all_eq_true]
  intro th hth
  exact decide_eq_true
    (c6_bidirectional_consistency 2 ["P2"] _ (by decide) p hp th hth)

/-! ### C4: the winner selector -/

/-- C4: with a non-negative seat count, `pickWinners` returns every candidate
(and an untouched generator) when the candidates fit into the seats — so an
under-subscribed selection step makes every eligible candidate win — and
otherwise returns exactly the first `seats` elements of a Fisher–Yates
shuffle of a copy of the candidate list (a permutation of it); the input
list itself is never changed, as `createShuffledArray` only builds a new
list. -/
theorem c4_winner_selector_spec {α : Type} (c : List α) (seats : Int)
    (g : XsState) (h : 0 ≤ seats) :
    ((c.length : Int) ≤ seats → pickWinners c seats g = (c, g)) ∧
    (seats < (c.length : Int) →
      (pickWinners c seats g).1 = (createShuffledArray c g).1.take seats.toNat ∧
      List.Perm (createShuffledArray c g).1 c ∧
      (pickWinners c seats g).1.length = seats.toNat) := by
  constructor
  · intro hle
    exact pickWinners_all g hle
  · intro hgt
    have hnle : ¬((c.length : Int) ≤ seats) := not_le.mpr hgt
    refine ⟨by simp [pickWinners, hnle], createShuffledArray_perm c g, ?_⟩
    have hlen := (createShuffledArray_perm c g).length_eq
    have htn : seats.toNat ≤ (createShuffledArray c g).1.length := by
      rw [hlen]
      have h1 : (seats.toNat : Int) < (c.length : Int) := by
        rw [Int.toNat_of_nonneg h]; exact hgt
      exact_mod_cast le_of_lt h1
    simp [pickWinners, hnle, List.length_take, Nat.min_eq_left htn]

/-- Witness for C4: both branches evaluated on concrete inputs. -/
theorem c4_winner_selector_spec_witness :
    pickWinners ["a", "b"] 5 (xsInit 3) = (["a", "b"], xsInit 3) ∧
    (pickWinners ["a", "b", "c"] 1 (xsInit 3)).1.length = (1 : Int).toNat :=
  ⟨(c4_winner_selector_spec ["a", "b"] 5 (xsInit 3) (by decide)).1 (by decide),
   ((c4_winner_selector_spec ["a", "b", "c"] 1 (xsInit 3) (by decide)).2
      (by decide)).2.2⟩

/-! ### C8: the inert foreign-key validation of preference entries -/

/-- C8: the guard `theaterId && theaterId === "" && !theaterIdSet.has(...)`
of `loadAndValidateOrders` demands a value that is simultaneously truthy and
the empty string, so the "unknown theater id" abort can never fire — in
particular never for a non-empty preference id, whatever the known id set. -/
theorem c8_unknown_id_check_inert (orders : List (List String))
    (maxOrders : Nat) (theaterIdSet : List String) :
    unknownIdAbort orders maxOrders theaterIdSet = false := by
  unfold unknownIdAbort
  rw [List.any_eq_false]
  intro cols _
  simp only [Bool.not_eq_true]
  rw [List.any_eq_false]
  intro i _
  simp only [Bool.not_eq_true]
  cases hv : cols.get? (i + 1) with
  | none => simp [hv, jsTruthyOpt]
  | some s =>
    by_cases hs : s = "" <;> simp [hv, jsTruthyOpt, hs]

/-! ### C9: resolution of the configured seed -/

/-- C9 counterexample: with the configuration supplying the integer seed 0
and `Date.now() = 42`, the run resolves the seed to 42 and the generator is
not initialized with the supplied 0 — `seed || defaultSeed` discards a zero
seed. -/
theorem c9_seed_zero_counterexample :
    resolvedSeed { maxOrders := 3, enableVacancy := false, seed := some 0 } 42 = 42 ∧
    xsInit (resolvedSeed { maxOrders := 3, enableVacancy := false, seed := some 0 } 42)
      ≠ xsInit 0 := by
  constructor
  · rfl
  · decide

/-- C9 amended: the time-derived default is used exactly when the
configuration omits the seed or supplies 0; every nonzero supplied seed is
used as-is. -/
theorem c9_seed_resolution (cfg : Config) (now : Int) :
    (∀ sv : Int, cfg.seed = some sv → sv ≠ 0 → resolvedSeed cfg now = sv) ∧
    (cfg.seed = none → resolvedSeed cfg now = now) ∧
    (cfg.seed = some 0 → resolvedSeed cfg now = now) := by
  refine ⟨?_, ?_, ?_⟩
  · intro sv hs h0
    unfold resolvedSeed
    rw [hs]
    simp [h0]
  · intro hs
    unfold resolvedSeed
    rw [hs]
  · intro hs
    unfold resolvedSeed
    rw [hs]
    simp

/-- Witness for C9's amended statement. -/
theorem c9_seed_resolution_witness :
    resolvedSeed { maxOrders := 1, enableVacancy := false, seed := some 9 } 1000 = 9 :=
  (c9_seed_resolution { maxOrders := 1, enableVacancy := false, seed := some 9 }
    1000).1 9 rfl (by decide)

/-! ### C3: determinism of the allocation -/

/-- C3 counterexample: two runs on identical applicant records, theater
records, configuration and the identical configured integer seed 0, taken at
two different wall-clock instants, produce different final holder sets —
seed 0 is replaced by the time-derived default, so the run is not a function
of the listed inputs alone. -/
theorem c3_determinism_counterexample :
    mainModel { maxOrders := 1, enableVacancy := false, seed := some 0 }
        [["P1", "R"], ["P2", "R"], ["P3", "R"]]
        [{ id := "R", timeSlot := "t", play := "x", capacity := 1 }] [] 1
      ≠
    mainModel { maxOrders := 1, enableVacancy := false, seed := some 0 }
        [["P1", "R"], ["P2", "R"], ["P3", "R"]]
        [{ id := "R", timeSlot := "t", play := "x", capacity := 1 }] [] 1073741824 := by
  decide

/-- C3 amended: for every pair of runs on identical applicant records,
theater records, configuration and identical nonzero configured integer
seed, the final state — all wins and holders sets — is identical: the
wall-clock sample never enters the computation, whose only randomness is the
single xorshift generator seeded from the configuration. -/
theorem c3_determinism (cfg : Config) (orders : List (List String))
    (recs : List TheaterRec) (v : List String) (now1 now2 : Int) (sv : Int)
    (hs : cfg.seed = some sv) (h0 : sv ≠ 0) :
    mainModel cfg orders recs v now1 = mainModel cfg orders recs v now2 := by
  have e1 : resolvedSeed cfg now1 = sv := by
    unfold resolvedSeed; rw [hs]; simp [h0]
  have e2 : resolvedSeed cfg now2 = sv := by
    unfold resolvedSeed; rw [hs]; simp [h0]
  unfold mainModel initialState
  rw [e1, e2]

/-- Witness for C3's amended statement. -/
theorem c3_determinism_witness :
    mainModel { maxOrders := 1, enableVacancy := false, seed := some 5 }
        [["P1", "R"]] [{ id := "R", timeSlot := "t", play := "x", capacity := 1 }] [] 1
      =
    mainModel { maxOrders := 1, enableVacancy := false, seed := some 5 }
        [["P1", "R"]] [{ id := "R", timeSlot := "t", play := "x", capacity := 1 }] [] 99 :=
  c3_determinism _ _ _ _ 1 99 5 rfl (by decide)

/-! ### C1: the capacity invariant -/

theorem tsig_eq_parts {a b : Theater} (h : tsigF a = tsigF b) :
    a.id = b.id ∧ a.timeSlot = b.timeSlot ∧ a.play = b.play ∧
      a.capacity = b.capacity := by
  simpa [tsigF, Prod.mk.injEq] using h

theorem assignWinners_cons (s : LState) (tid pid : String) (rest : List String) :
    assignWinners s tid (pid :: rest) = assignWinners (assignOne s tid pid) tid rest :=
  rfl

theorem assignOne_theaters_rel (s : LState) (tid pid : String) :
    List.Forall₂ (fun a b => tsigF a = tsigF b ∧
        b.assigned.length ≤ a.assigned.length + 1 ∧
        (a.id ≠ tid → b.assigned = a.assigned))
      s.theaters (assignOne s tid pid).theaters := by
  unfold assignOne updateTheater
  simp only
  apply forall₂_map_right_self
  intro th _
  by_cases h : (th.id == tid) = true
  · have hid : th.id = tid := by simpa using h
    refine ⟨by simp [h, tsigF], ?_, ?_⟩
    · simp only [h, if_pos]
      exact length_jsSetAdd_le th.assigned pid
    · intro hne
      exact absurd hid hne
  · refine ⟨by simp [h, tsigF], ?_, fun _ => by simp [h]⟩
    simp [h]

theorem assignWinners_theaters_rel :
    ∀ (ws : List String) (s : LState) (tid : String),
      List.Forall₂ (fun a b => tsigF a = tsigF b ∧
          b.assigned.length ≤ a.assigned.length + ws.length ∧
          (a.id ≠ tid → b.assigned = a.assigned))
        s.theaters (assignWinners s tid ws).theaters := by
  intro ws
  induction ws with
  | nil =>
    intro s tid
    apply forall₂_self
    intro a _
    exact ⟨rfl, by simp, fun _ => rfl⟩
  | cons pid rest ih =>
    intro s tid
    rw [assignWinners_cons]
    have hstep := assignOne_theaters_rel s tid pid
    have hrest := ih (assignOne s tid pid) tid
    refine forall₂_comp ?_ hstep hrest
    intro a b c hab hbc
    refine ⟨hab.1.trans hbc.1, ?_, ?_⟩
    · have h1 := hab.2.1
      have h2 := hbc.2.1
      simp only [List.length_cons]
      omega
    · intro hne
      have hbid : b.id = a.id := ((tsig_eq_parts hab.1).1).symm
      rw [hbc.2.2 (by rw [hbid]; exact hne)]
      exact hab.2.2 hne

theorem initCountLoop_cap (rank : Nat) (th : Theater) :
    ∀ (buckets : List (Nat × List String)) (seats : Int) (s : LState),
      0 ≤ seats →
      (∀ th' ∈ s.theaters, th'.id = th.id →
        (th'.assigned.length : Int) + seats ≤ th'.capacity) →
      (∀ th' ∈ s.theaters, th'.id ≠ th.id →
        (th'.assigned.length : Int) ≤ th'.capacity) →
      ∀ th' ∈ (initCountLoop rank th buckets seats s).theaters,
        (th'.assigned.length : Int) ≤ th'.capacity := by
  intro buckets
  induction buckets with
  | nil =>
    intro seats s h0 h1 h2 th' hth'
    simp only [initCountLoop] at hth'
    by_cases hid : th'.id = th.id
    · have := h1 th' hth' hid
      omega
    · exact h2 th' hth' hid
  | cons b rest ih =>
    intro seats s h0 h1 h2
    simp only [initCountLoop]
    split
    · intro th' hth'
      by_cases hid : th'.id = th.id
      · have := h1 th' hth' hid
        omega
      · exact h2 th' hth' hid
    · split
      · exact ih seats s h0 h1 h2
      · rename_i hpos _
        have hseat : (0 : Int) ≤ seats := h0
        have hL := pickWinners_len_le
          (initCandidates s.persons s.theaters th rank b.2) s.g hseat
        set cs := initCandidates s.persons s.theaters th rank b.2 with hcs
        set pw := pickWinners cs seats s.g with hpw
        have hrel := assignWinners_theaters_rel pw.1
          { persons := s.persons, theaters := s.theaters, g := pw.2 } th.id
        apply ih
        · omega
        · intro th'' hth'' hid
          rcases forall₂_mem_right hrel th'' hth'' with ⟨a, ha, hr⟩
          have hparts := tsig_eq_parts hr.1
          have h1a := h1 a ha (hparts.1.trans hid ▸ by rw [hparts.1, hid])
          have hlen := hr.2.1
          have hcapeq := hparts.2.2.2
          omega
        · intro th'' hth'' hid
          rcases forall₂_mem_right hrel th'' hth'' with ⟨a, ha, hr⟩
          have hparts := tsig_eq_parts hr.1
          have haid : a.id ≠ th.id := by rw [hparts.1]; exact hid
          have h2a := h2 a ha haid
          rw [hr.2.2 haid] at *
          have hcapeq := hparts.2.2.2
          omega

theorem doInitTheater_sigs (rank : Nat) (snapshot : List (Nat × List String))
    (s : LState) (tid : String) :
    (doInitTheater rank snapshot s tid).theaters.map tsigF = s.theaters.map tsigF ∧
      (doInitTheater rank snapshot s tid).persons.map psigF = s.persons.map psigF :=
  pres_doInitTheater (sig_closed _ _) rank snapshot s tid ⟨rfl, rfl⟩

theorem doInitRound_sigs (rank : Nat) (s : LState) :
    (doInitRound rank s).theaters.map tsigF = s.theaters.map tsigF ∧
      (doInitRound rank s).persons.map psigF = s.persons.map psigF :=
  pres_doInitRound (sig_closed _ _) rank s ⟨rfl, rfl⟩

theorem doVacTheater_sigs (vIds : List String) (s : LState) (tid : String) :
    (doVacTheater vIds s tid).theaters.map tsigF = s.theaters.map tsigF ∧
      (doVacTheater vIds s tid).persons.map psigF = s.persons.map psigF :=
  pres_doVacTheater (sig_closed _ _) vIds s tid ⟨rfl, rfl⟩

theorem doInitTheater_cap (rank : Nat) (snapshot : List (Nat × List String))
    (s : LState) (tid : String)
    (hnd : (s.theaters.map (fun t => t.id)).Nodup)
    (hcap : ∀ th' ∈ s.theaters, (th'.assigned.length : Int) ≤ th'.capacity) :
    ∀ th' ∈ (doInitTheater rank snapshot s tid).theaters,
      (th'.assigned.length : Int) ≤ th'.capacity := by
  unfold doInitTheater
  cases hf : findTheater s.theaters tid with
  | none => exact hcap
  | some th =>
    simp only
    split
    · exact hcap
    · rename_i hseats
      apply initCountLoop_cap
      · omega
      · intro th' hth' hid
        have hthm := (findTheater_some hf).1
        have hth'th : th' = th := nodup_id_inj hnd hth' hthm hid
        subst hth'th
        omega
      · intro th' hth' _
        exact hcap th' hth'

theorem vacCountLoop_cap (th : Theater) :
    ∀ (buckets : List (Nat × List String)) (seats : Int) (s : LState),
      0 ≤ seats →
      (∀ th' ∈ s.theaters, th'.id = th.id →
        (th'.assigned.length : Int) + seats ≤ th'.capacity) →
      (∀ th' ∈ s.theaters, th'.id ≠ th.id →
        (th'.assigned.length : Int) ≤ th'.capacity) →
      ∀ th' ∈ (vacCountLoop th buckets seats s).theaters,
        (th'.assigned.length : Int) ≤ th'.capacity := by
  intro buckets
  induction buckets with
  | nil =>
    intro seats s h0 h1 h2 th' hth'
    simp only [vacCountLoop] at hth'
    by_cases hid : th'.id = th.id
    · have := h1 th' hth' hid
      omega
    · exact h2 th' hth' hid
  | cons b rest ih =>
    intro seats s h0 h1 h2
    simp only [vacCountLoop]
    split
    · intro th' hth'
      by_cases hid : th'.id = th.id
      · have := h1 th' hth' hid
        omega
      · exact h2 th' hth' hid
    · split
      · exact ih seats s h0 h1 h2
      · have hL := pickWinners_len_le
          (vacCandidates s.persons s.theaters th b.2) s.g h0
        set es := vacCandidates s.persons s.theaters th b.2 with hes
        set pw := pickWinners es seats s.g with hpw
        have hrel := assignWinners_theaters_rel pw.1
          { persons := s.persons, theaters := s.theaters, g := pw.2 } th.id
        apply ih
        · omega
        · intro th'' hth'' hid
          rcases forall₂_mem_right hrel th'' hth'' with ⟨a, ha, hr⟩
          have hparts := tsig_eq_parts hr.1
          have h1a := h1 a ha (by rw [hparts.1, hid])
          have hlen := hr.2.1
          have hcapeq := hparts.2.2.2
          omega
        · intro th'' hth'' hid
          rcases forall₂_mem_right hrel th'' hth'' with ⟨a, ha, hr⟩
          have hparts := tsig_eq_parts hr.1
          have haid : a.id ≠ th.id := by rw [hparts.1]; exact hid
          have h2a := h2 a ha haid
          rw [hr.2.2 haid] at *
          have hcapeq := hparts.2.2.2
          omega

theorem doVacTheater_cap (vIds : List String) (s : LState) (tid : String)
    (hnd : (s.theaters.map (fun t => t.id)).Nodup)
    (hcap : ∀ th' ∈ s.theaters, (th'.assigned.length : Int) ≤ th'.capacity) :
    ∀ th' ∈ (doVacTheater vIds s tid).theaters,
      (th'.assigned.length : Int) ≤ th'.capacity := by
  unfold doVacTheater
  cases hf : findTheater s.theaters tid with
  | none => exact hcap
  | some th =>
    simp only
    split
    · exact hcap
    · apply vacCountLoop_cap
      · omega
      · intro th' hth' hid
        have hthm := (findTheater_some hf).1
        have hth'th : th' = th := nodup_id_inj hnd hth' hthm hid
        subst hth'th
        omega
      · intro th' hth' _
        exact hcap th' hth'

theorem doInitRound_cap (rank : Nat) (s : LState)
    (hnd : (s.theaters.map (fun t => t.id)).Nodup)
    (hcap : ∀ th' ∈ s.theaters, (th'.assigned.length : Int) ≤ th'.capacity) :
    (∀ th' ∈ (doInitRound rank s).theaters,
      (th'.assigned.length : Int) ≤ th'.capacity) ∧
      ((doInitRound rank s).theaters.map (fun t => t.id)).Nodup := by
  unfold doInitRound
  have hfold := foldl_pres
    (P := fun s' => (∀ th' ∈ s'.theaters, (th'.assigned.length : Int) ≤ th'.capacity) ∧
      (s'.theaters.map (fun t => t.id)).Nodup)
    (f := doInitTheater rank (snapshotGroups s.persons))
    (by
      intro s' tid h'
      refine ⟨doInitTheater_cap rank _ s' tid h'.2 h'.1, ?_⟩
      rw [tid_map_eq_of_tsig (doInitTheater_sigs rank _ s' tid).1]
      exact h'.2)
    (s.theaters.map (fun th => th.id)) s ⟨hcap, hnd⟩
  exact hfold

theorem initLoopAux_cap :
    ∀ (r rank : Nat) (s : LState),
      (s.theaters.map (fun t => t.id)).Nodup →
      (∀ th' ∈ s.theaters, (th'.assigned.length : Int) ≤ th'.capacity) →
      (∀ th' ∈ (initLoopAux rank r s).theaters,
        (th'.assigned.length : Int) ≤ th'.capacity) ∧
        ((initLoopAux rank r s).theaters.map (fun t => t.id)).Nodup := by
  intro r
  induction r with
  | zero =>
    intro rank s hnd hcap
    simpa [initLoopAux] using ⟨hcap, hnd⟩
  | succ r ih =>
    intro rank s hnd hcap
    simp only [initLoopAux]
    split
    · exact ⟨hcap, hnd⟩
    · have hr := doInitRound_cap rank s hnd hcap
      exact ih (rank + 1) (doInitRound rank s) hr.2 hr.1

theorem runVacancyLottery_cap (v : List String) (s : LState)
    (hnd : (s.theaters.map (fun t => t.id)).Nodup)
    (hcap : ∀ th' ∈ s.theaters, (th'.assigned.length : Int) ≤ th'.capacity) :
    ∀ th' ∈ (runVacancyLottery v s).theaters,
      (th'.assigned.length : Int) ≤ th'.capacity := by
  unfold runVacancyLottery
  split
  · exact hcap
  · have hfold := foldl_pres
      (P := fun s' => (∀ th' ∈ s'.theaters, (th'.assigned.length : Int) ≤ th'.capacity) ∧
        (s'.theaters.map (fun t => t.id)).Nodup)
      (f := doVacTheater v)
      (by
        intro s' tid h'
        refine ⟨doVacTheater_cap v s' tid h'.2 h'.1, ?_⟩
        rw [tid_map_eq_of_tsig (doVacTheater_sigs v s' tid).1]
        exact h'.2)
      (s.theaters.map (fun th => th.id)) s ⟨hcap, hnd⟩
    exact hfold.1

/-- C1: when every theater starts with at most `capacity` holders (in
particular, with empty holders and non-negative capacity), every selection
step of both passes computes the remaining seats, skips full theaters and
registers at most that many winners, so after the initial lottery followed
by the vacancy lottery every theater still has at most `capacity` holders.
Theater ids are unique, as the program's input validation enforces. -/
theorem c1_capacity_invariant (m : Nat) (v : List String) (s : LState)
    (hnd : (s.theaters.map (fun t => t.id)).Nodup)
    (hcap : ∀ th ∈ s.theaters, (th.assigned.length : Int) ≤ th.capacity) :
    ∀ th ∈ (runVacancyLottery v (runInitialLottery m s)).theaters,
      (th.assigned.length : Int) ≤ th.capacity := by
  have hinit := initLoopAux_cap m 0 s hnd hcap
  exact runVacancyLottery_cap v (runInitialLottery m s) hinit.2 hinit.1

/-- Witness for C1: an over-subscribed concrete instance. -/
theorem c1_capacity_invariant_witness :
    ((runVacancyLottery ["P3"] (runInitialLottery 1
        { persons := [{ id := "P1", prefs := [some "R1"], assigned := [] },
                      { id := "P2", prefs := [some "R1"], assigned := [] },
                      { id := "P3", prefs := [none], assigned := [] }],
          theaters := [{ id := "R1", timeSlot := "t1", play := "x", capacity := 1, assigned := [] },
                       { id := "R2", timeSlot := "t2", play := "y", capacity := 1, assigned := [] }],
          g := xsInit 11 })).theaters.all (fun th =>
      decide ((th.assigned.length : Int) ≤ th.capacity))) = true := by
  rw [List.all_eq_true]
  intro th hth
  exact decide_eq_true
    (c1_capacity_invariant 1 ["P3"] _ (by decide) (by decide) th hth)

/-! ### C7: the backfill filter excludes current holders -/

theorem hasConflict_of_holding {ths : List Theater} {th : Theater} {p : Person}
    (hth : findTheater ths th.id = some th) (hmem : th.id ∈ p.assigned) :
    hasConflict p th ths = true := by
  unfold hasConflict
  rw [List.any_eq_true]
  refine ⟨th.id, hmem, ?_⟩
  unfold findTheater at hth
  rw [hth]
  simp

/-- C7: a candidate selected by `pickWinners` from the vacancy eligibility
filter of a theater never already holds that theater: holding it means the
map resolves its id to a theater sharing its own time slot, so `hasConflict`
reports a conflict and the filter removes the candidate.  The hypothesis
states that `theaterMap` resolves the theater's id to the theater itself, as
is the case for every theater the vacancy pass iterates. -/
theorem c7_backfill_excludes_holders (ps : List Person) (ths : List Theater)
    (th : Theater) (ids : List String) (seats : Int) (g : XsState)
    (hth : findTheater ths th.id = some th) :
    ∀ pid ∈ (pickWinners (vacCandidates ps ths th ids) seats g).1,
      ∀ p, findPerson ps pid = some p → th.id ∉ p.assigned := by
  intro pid hpid p hp hmem
  have hcand : pid ∈ vacCandidates ps ths th ids := pickWinners_mem hpid
  unfold vacCandidates at hcand
  rcases List.mem_filter.mp hcand with ⟨_, hpred⟩
  rw [hp] at hpred
  simp only [Bool.not_eq_true'] at hpred
  rw [hasConflict_of_holding hth hmem] at hpred
  exact Bool.true_eq_false.mp hpred

/-- Witness for C7: one holder, one fresh opted-in candidate; the selected
winner "P2" does not already hold the theater. -/
theorem c7_backfill_excludes_holders_witness :
    ({ id := "R", timeSlot := "t", play := "x", capacity := 2,
       assigned := ["P1"] } : Theater).id ∉
      ({ id := "P2", prefs := [], assigned := ["S"] } : Person).assigned :=
  c7_backfill_excludes_holders
    [{ id := "P1", prefs := [], assigned := ["R"] },
     { id := "P2", prefs := [], assigned := ["S"] }]
    [{ id := "R", timeSlot := "t", play := "x", capacity := 2, assigned := ["P1"] },
     { id := "S", timeSlot := "u", play := "y", capacity := 2, assigned := ["P2"] }]
    { id := "R", timeSlot := "t", play := "x", capacity := 2, assigned := ["P1"] }
    ["P1", "P2"] 1 (xsInit 1) (by decide) "P2" (by decide)
    { id := "P2", prefs := [], assigned := ["S"] } (by decide)

/-! ### C5: the backfill pass is gated, restricted and frame-preserving -/

/-- Frame relation of the vacancy pass relative to a start state: immutable
fields unchanged; persons outside the opt-in set keep their wins unchanged;
holder membership of ids outside the opt-in set is unchanged. -/
def VacFrame (vIds : List String) (s0 s : LState) : Prop :=
  List.Forall₂ (fun po pn => psigF po = psigF pn ∧
    (po.id ∉ vIds → pn.assigned = po.assigned)) s0.persons s.persons ∧
  List.Forall₂ (fun t0 tn => tsigF t0 = tsigF tn ∧
    ∀ x, x ∉ vIds → (x ∈ tn.assigned ↔ x ∈ t0.assigned)) s0.theaters s.theaters

theorem vacFrame_refl (vIds : List String) (s : LState) : VacFrame vIds s s := by
  constructor
  · exact forall₂_self (fun a _ => ⟨rfl, fun _ => rfl⟩)
  · exact forall₂_self (fun a _ => ⟨rfl, fun _ _ => Iff.rfl⟩)

theorem vacFrame_assignOne {vIds : List String} {s0 s : LState} {tid pid : String}
    (hpid : pid ∈ vIds) (h : VacFrame vIds s0 s) :
    VacFrame vIds s0 (assignOne s tid pid) := by
  constructor
  · have hstep : List.Forall₂ (fun pn pn' => psigF pn = psigF pn' ∧
        (pn.id ∉ vIds → pn'.assigned = pn.assigned))
        s.persons (assignOne s tid pid).persons := by
      unfold assignOne updatePerson
      simp only
      apply forall₂_map_right_self
      intro p _
      by_cases hm : (p.id == pid) = true
      · have : p.id = pid := by simpa using hm
        refine ⟨by simp [hm, psigF], fun hout => absurd (this ▸ hpid) hout⟩
      · exact ⟨by simp [hm, psigF], fun _ => by simp [hm]⟩
    refine forall₂_comp ?_ h.1 hstep
    intro a b c hab hbc
    refine ⟨hab.1.trans hbc.1, ?_⟩
    intro hout
    have hbid : b.id = a.id := by
      have := congrArg Prod.fst hab.1
      simpa [psigF] using this.symm
    rw [hbc.2 (by rw [hbid]; exact hout)]
    exact hab.2 hout
  · have hstep : List.Forall₂ (fun tn tn' => tsigF tn = tsigF tn' ∧
        ∀ x, x ∉ vIds → (x ∈ tn'.assigned ↔ x ∈ tn.assigned))
        s.theaters (assignOne s tid pid).theaters := by
      unfold assignOne updateTheater
      simp only
      apply forall₂_map_right_self
      intro th _
      by_cases hm : (th.id == tid) = true
      · refine ⟨by simp [hm, tsigF], ?_⟩
        intro x hx
        simp only [hm, if_pos, mem_jsSetAdd]
        have hxpid : x ≠ pid := fun hc => hx (hc ▸ hpid)
        simp [hxpid]
      · exact ⟨by simp [hm, tsigF], fun x _ => by simp [hm]⟩
    refine forall₂_comp ?_ h.2 hstep
    intro a b c hab hbc
    refine ⟨hab.1.trans hbc.1, ?_⟩
    intro x hx
    exact (hbc.2 x hx).trans (hab.2 x hx)

theorem vacFrame_g {vIds : List String} {s0 s : LState} (gn : XsState)
    (h : VacFrame vIds s0 s) :
    VacFrame vIds s0 { persons := s.persons, theaters := s.theaters, g := gn } :=
  h

theorem vacFrame_assignWinners {vIds : List String} {s0 : LState} :
    ∀ (ws : List String) (s : LState) (tid : String),
      (∀ pid ∈ ws, pid ∈ vIds) → VacFrame vIds s0 s →
      VacFrame vIds s0 (assignWinners s tid ws) := by
  intro ws
  induction ws with
  | nil => intro s tid _ h; exact h
  | cons pid rest ih =>
    intro s tid hws h
    rw [assignWinners_cons]
    exact ih _ tid (fun q hq => hws q (by simp [hq]))
      (vacFrame_assignOne (hws pid (by simp)) h)

theorem mem_bucketIds {ps : List Person} {c : Nat} {pid : String}
    (h : pid ∈ bucketIds ps c) : ∃ p ∈ ps, p.id = pid := by
  unfold bucketIds at h
  rcases List.mem_map.mp h with ⟨p, hp, rfl⟩
  exact ⟨p, (List.mem_filter.mp hp).1, rfl⟩

theorem snapshotGroups_mem {ps : List Person} {b : Nat × List String}
    (hb : b ∈ snapshotGroups ps) : ∀ pid ∈ b.2, ∃ p ∈ ps, p.id = pid := by
  unfold snapshotGroups at hb
  rcases List.mem_map.mp hb with ⟨c, _, rfl⟩
  intro pid hpid
  exact mem_bucketIds hpid

theorem vacSnapshot_mem_vIds {vIds : List String} {ps : List Person}
    {b : Nat × List String} (hb : b ∈ vacSnapshot vIds ps) :
    ∀ pid ∈ b.2, pid ∈ vIds := by
  intro pid hpid
  rcases snapshotGroups_mem hb pid hpid with ⟨p, hp, rfl⟩
  rcases List.mem_filter.mp hp with ⟨_, hc⟩
  exact contains_true_iff.mp hc

theorem vacCountLoop_frame {vIds : List String} {s0 : LState} (th : Theater) :
    ∀ (buckets : List (Nat × List String)) (seats : Int) (s : LState),
      (∀ b ∈ buckets, ∀ pid ∈ b.2, pid ∈ vIds) →
      VacFrame vIds s0 s → VacFrame vIds s0 (vacCountLoop th buckets seats s) := by
  intro buckets
  induction buckets with
  | nil => intro seats s _ h; simpa [vacCountLoop] using h
  | cons b rest ih =>
    intro seats s hb h
    simp only [vacCountLoop]
    split
    · exact h
    · split
      · exact ih seats s (fun b' hb' => hb b' (by simp [hb'])) h
      · apply ih _ _ (fun b' hb' => hb b' (by simp [hb']))
        apply vacFrame_assignWinners _ _ _ ?_ (vacFrame_g _ h)
        intro pid hpid
        have hcand := pickWinners_mem hpid
        unfold vacCandidates at hcand
        have hin : pid ∈ b.2 := (List.mem_filter.mp hcand).1
        exact hb b (by simp) pid hin

theorem doVacTheater_frame {vIds : List String} {s0 : LState} (s : LState)
    (tid : String) (h : VacFrame vIds s0 s) :
    VacFrame vIds s0 (doVacTheater vIds s tid) := by
  unfold doVacTheater
  cases findTheater s.theaters tid with
  | none => exact h
  | some th =>
    simp only
    split
    · exact h
    · exact vacCountLoop_frame th _ _ s
        (fun b hb => vacSnapshot_mem_vIds hb) h

theorem runVacancyLottery_frame (vIds : List String) (s : LState) :
    VacFrame vIds s (runVacancyLottery vIds s) := by
  unfold runVacancyLottery
  split
  · exact vacFrame_refl vIds s
  · exact foldl_pres (fun s' tid h' => doVacTheater_frame s' tid h') _ s
      (vacFrame_refl vIds s)

/-- C5: the backfill pass runs only when `enableVacancy` holds; an empty (or
absent, hence empty) opt-in list makes it a no-op; and it only ever touches
opted-in applicants: every person outside the opt-in list keeps exactly its
wins set, and membership of any id outside the opt-in list in any theater's
holders is unchanged, while ids, preferences, keys and capacities never
change. -/
theorem c5_backfill_frame (cfg : Config) (orders : List (List String))
    (recs : List TheaterRec) (vl : List String) (now : Int)
    (v : List String) (s : LState) :
    (v = [] → runVacancyLottery v s = s) ∧
    (cfg.enableVacancy = false →
      mainModel cfg orders recs vl now =
        runInitialLottery cfg.maxOrders (initialState cfg orders recs now)) ∧
    List.Forall₂ (fun po pn => psigF po = psigF pn ∧
      (po.id ∉ v → pn.assigned = po.assigned))
      s.persons (runVacancyLottery v s).persons ∧
    List.Forall₂ (fun t0 tn => tsigF t0 = tsigF tn ∧
      ∀ x, x ∉ v → (x ∈ tn.assigned ↔ x ∈ t0.assigned))
      s.theaters (runVacancyLottery v s).theaters := by
  refine ⟨?_, ?_, (runVacancyLottery_frame v s).1, (runVacancyLottery_frame v s).2⟩
  · intro hv
    subst hv
    simp [runVacancyLottery]
  · intro hv
    unfold mainModel
    rw [hv]
    simp

/-- Witness for C5 on concrete inputs. -/
theorem c5_backfill_frame_witness :
    runVacancyLottery ([] : List String)
      { persons := [{ id := "P1", prefs := [some "R"], assigned := ["R"] }],
        theaters := [{ id := "R", timeSlot := "t", play := "x", capacity := 2,
                       assigned := ["P1"] }],
        g := xsInit 4 }
      =
      { persons := [{ id := "P1", prefs := [some "R"], assigned := ["R"] }],
        theaters := [{ id := "R", timeSlot := "t", play := "x", capacity := 2,
                       assigned := ["P1"] }],
        g := xsInit 4 } ∧
    mainModel { maxOrders := 1, enableVacancy := false, seed := some 3 }
        [["P1", "R"]] [{ id := "R", timeSlot := "t", play := "x", capacity := 1 }]
        ["P1"] 0
      =
      runInitialLottery 1 (initialState
        { maxOrders := 1, enableVacancy := false, seed := some 3 }
        [["P1", "R"]] [{ id := "R", timeSlot := "t", play := "x", capacity := 1 }] 0) :=
  ⟨(c5_backfill_frame { maxOrders := 1, enableVacancy := false, seed := some 3 }
      [["P1", "R"]] [{ id := "R", timeSlot := "t", play := "x", capacity := 1 }]
      ["P1"] 0 [] _).1 rfl,
   (c5_backfill_frame { maxOrders := 1, enableVacancy := false, seed := some 3 }
      [["P1", "R"]] [{ id := "R", timeSlot := "t", play := "x", capacity := 1 }]
      ["P1"] 0 []
      { persons := [], theaters := [], g := xsInit 0 }).2.1 rfl⟩

/-! ### C2: the conflict invariant -/

/-- Two won theater ids are compatible: whatever keys the map resolves them
to differ in both the time slot and the play. -/
def keysOk (ths : List Theater) (a b : String) : Prop :=
  ∀ ka kb, lookKeys ths a = some ka → lookKeys ths b = some kb →
    ka.1 ≠ kb.1 ∧ ka.2 ≠ kb.2

/-- No applicant's wins contain two theaters sharing a time slot or play. -/
def ConflictFree (s : LState) : Prop :=
  ∀ p ∈ s.persons, List.Pairwise (keysOk s.theaters) p.assigned

theorem keysOk_symm (ths : List Theater) : Symmetric (keysOk ths) := by
  intro a b h kb ka hb ha
  have r := h ka kb ha hb
  exact ⟨r.1.symm, r.2.symm⟩

theorem keysOk_congr {ths ths' : List Theater}
    (hmap : ths'.map tsigF = ths.map tsigF) {a b : String}
    (h : keysOk ths a b) : keysOk ths' a b := by
  intro ka kb ha hb
  rw [lookKeys_congr hmap] at ha hb
  exact h ka kb ha hb

theorem pairwise_keysOk_congr {ths ths' : List Theater}
    (hmap : ths'.map tsigF = ths.map tsigF) {l : List String}
    (h : List.Pairwise (keysOk ths) l) : List.Pairwise (keysOk ths') l :=
  h.imp (fun hr => keysOk_congr hmap hr)

theorem not_hasConflict_keys {p : Person} {th : Theater} {ths : List Theater}
    (h : hasConflict p th ths = false) :
    ∀ a ∈ p.assigned, ∀ k, lookKeys ths a = some k →
      k.1 ≠ th.timeSlot ∧ k.2 ≠ th.play := by
  unfold hasConflict at h
  rw [List.any_eq_false] at h
  intro a ha k hk
  have h2 := h a ha
  unfold lookKeys findTheater at hk
  cases hf : ths.find? (fun t => t.id == a) with
  | none => rw [hf] at hk; simp at hk
  | some t =>
    rw [hf] at hk h2
    have hk2 : thKeys t = k := by simpa using hk
    subst hk2
    simp only [Bool.not_eq_true, Bool.or_eq_false_iff] at h2
    unfold thKeys
    exact ⟨by simpa using h2.1, by simpa using h2.2⟩

theorem assignOne_conflictFree {s : LState} {tid pid : String}
    {kt : String × String} (hk : lookKeys s.theaters tid = some kt)
    (helig : ∀ p ∈ s.persons, p.id = pid →
      ((∀ a ∈ p.assigned, ∀ k, lookKeys s.theaters a = some k →
          k.1 ≠ kt.1 ∧ k.2 ≠ kt.2) ∨ tid ∈ p.assigned))
    (h : ConflictFree s) : ConflictFree (assignOne s tid pid) := by
  have hmap : (assignOne s tid pid).theaters.map tsigF = s.theaters.map tsigF :=
    updateTheater_tsig s.theaters tid pid
  intro p' hp'
  have hp'2 : p' ∈ updatePerson s.persons pid tid := hp'
  unfold updatePerson at hp'2
  rcases List.mem_map.mp hp'2 with ⟨p, hp, rfl⟩
  have hPW := h p hp
  by_cases hm : (p.id == pid) = true
  · have hid : p.id = pid := by simpa using hm
    rcases helig p hp hid with hcase | hmem
    · by_cases htmem : tid ∈ p.assigned
      · simp only [hm, if_pos]
        rw [jsSetAdd_of_mem htmem]
        exact pairwise_keysOk_congr hmap hPW
      · simp only [hm, if_pos]
        rw [jsSetAdd_of_not_mem htmem]
        apply pairwise_keysOk_congr hmap
        rw [List.pairwise_append]
        refine ⟨hPW, by simp, ?_⟩
        intro a ha b hb
        have hb2 : b = tid := by simpa using hb
        subst hb2
        intro ka kb hka hkb
        rw [hk] at hkb
        obtain rfl : kt = kb := by simpa using hkb
        exact hcase a ha ka hka
    · simp only [hm, if_pos]
      rw [jsSetAdd_of_mem hmem]
      exact pairwise_keysOk_congr hmap hPW
  · have hm2 : (p.id == pid) = false := by simpa using hm
    simp only [hm2, Bool.false_eq_true, if_false]
    exact pairwise_keysOk_congr hmap hPW

theorem initCandidates_spec {ps : List Person} {ths : List Theater}
    {th : Theater} {rank : Nat} {ids : List String} {pid : String}
    (h : pid ∈ initCandidates ps ths th rank ids) :
    ∃ p0, findPerson ps pid = some p0 ∧
      p0.prefs.getD rank none = some th.id ∧ th.id ∉ p0.assigned ∧
      hasConflict p0 th ths = false := by
  unfold initCandidates at h
  rcases List.mem_filter.mp h with ⟨_, hpred⟩
  cases hf : findPerson ps pid with
  | none => rw [hf] at hpred; simp at hpred
  | some p0 =>
    rw [hf] at hpred
    simp only [Bool.and_eq_true, beq_iff_eq, Bool.not_eq_true'] at hpred
    refine ⟨p0, rfl, hpred.1.1, ?_, hpred.2⟩
    intro hmem
    rw [contains_true_iff.mpr hmem] at hpred
    simp at hpred

theorem vacCandidates_spec {ps : List Person} {ths : List Theater}
    {th : Theater} {ids : List String} {pid : String}
    (h : pid ∈ vacCandidates ps ths th ids) :
    ∃ p0, findPerson ps pid = some p0 ∧ hasConflict p0 th ths = false := by
  unfold vacCandidates at h
  rcases List.mem_filter.mp h with ⟨_, hpred⟩
  cases hf : findPerson ps pid with
  | none => rw [hf] at hpred; simp at hpred
  | some p0 =>
    rw [hf] at hpred
    simp only [Bool.not_eq_true'] at hpred
    exact ⟨p0, rfl, hpred⟩

theorem assignOne_person_mem {s : LState} {tid pid : String} {p' : Person}
    (hp' : p' ∈ (assignOne s tid pid).persons) :
    ∃ p'' ∈ s.persons, p'.id = p''.id ∧
      ((p''.id ≠ pid → p' = p'') ∧ p'.assigned ⊇ p''.assigned ∧
        (tid ∈ p''.assigned → p' = p'')) := by
  unfold assignOne updatePerson at hp'
  simp only at hp'
  rcases List.mem_map.mp hp' with ⟨p'', hp'', rfl⟩
  by_cases hm : (p''.id == pid) = true
  · refine ⟨p'', hp'', by simp [hm], ?_, ?_, ?_⟩
    · intro hne
      exact absurd (by simpa using hm) hne
    · simp only [hm, if_pos]
      intro x hx
      exact mem_jsSetAdd.mpr (Or.inl hx)
    · intro hmem
      simp only [hm, if_pos]
      rw [jsSetAdd_of_mem hmem]
  · have hm2 : (p''.id == pid) = false := by simpa using hm
    refine ⟨p'', hp'', by simp [hm2], fun _ => by simp [hm2], ?_, fun _ => by simp [hm2]⟩
    simp only [hm2, Bool.false_eq_true, if_false]
    exact fun x hx => hx

theorem assignWinners_conflictFree {kt : String × String} :
    ∀ (ws : List String) (s : LState) (tid : String),
      lookKeys s.theaters tid = some kt →
      (s.persons.map (fun p => p.id)).Nodup →
      ws.Nodup →
      (∀ pid ∈ ws, ∀ p ∈ s.persons, p.id = pid →
        ((∀ a ∈ p.assigned, ∀ k, lookKeys s.theaters a = some k →
            k.1 ≠ kt.1 ∧ k.2 ≠ kt.2) ∨ tid ∈ p.assigned)) →
      ConflictFree s → ConflictFree (assignWinners s tid ws) := by
  intro ws
  induction ws with
  | nil => intro s tid _ _ _ _ h; exact h
  | cons pid rest ih =>
    intro s tid hk hndP hws helig h
    rw [assignWinners_cons]
    have hsig_t : (assignOne s tid pid).theaters.map tsigF = s.theaters.map tsigF :=
      updateTheater_tsig s.theaters tid pid
    have hsig_p : (assignOne s tid pid).persons.map psigF = s.persons.map psigF :=
      updatePerson_psig s.persons pid tid
    have hk1 : lookKeys (assignOne s tid pid).theaters tid = some kt := by
      rw [lookKeys_congr hsig_t]; exact hk
    have hndP1 : ((assignOne s tid pid).persons.map (fun p => p.id)).Nodup := by
      rw [pid_map_eq_of_psig hsig_p]; exact hndP
    have hnc := List.nodup_cons.mp hws
    have hcf1 : ConflictFree (assignOne s tid pid) :=
      assignOne_conflictFree hk (fun p hp hid => helig pid (by simp) p hp hid) h
    apply ih (assignOne s tid pid) tid hk1 hndP1 hnc.2 ?_ hcf1
    intro pid' hpid' p' hp' hid'
    have hne : pid' ≠ pid := fun hc => hnc.1 (hc ▸ hpid')
    rcases assignOne_person_mem hp' with ⟨p'', hp'', hideq, hunch, _, _⟩
    have hp'eq : p' = p'' := hunch (by rw [← hideq, hid']; exact hne)
    rw [hp'eq]
    have hid'2 : p''.id = pid' := by rw [← hp'eq]; exact hid'
    rcases helig pid' (by simp [hpid']) p'' hp'' hid'2 with hleft | hright
    · left
      intro a ha k hk'
      rw [lookKeys_congr hsig_t] at hk'
      exact hleft a ha k hk'
    · right
      exact hright

theorem snapshotGroups_nodup {ps : List Person}
    (hndP : (ps.map (fun p => p.id)).Nodup) :
    ∀ b ∈ snapshotGroups ps, b.2.Nodup := by
  intro b hb
  unfold snapshotGroups at hb
  rcases List.mem_map.mp hb with ⟨c, _, rfl⟩
  unfold bucketIds
  exact List.Nodup.sublist (List.Sublist.map _ (List.filter_sublist ps)) hndP

theorem vacSnapshot_nodup {vIds : List String} {ps : List Person}
    (hndP : (ps.map (fun p => p.id)).Nodup) :
    ∀ b ∈ vacSnapshot vIds ps, b.2.Nodup := by
  unfold vacSnapshot
  apply snapshotGroups_nodup
  exact List.Nodup.sublist (List.Sublist.map _ (List.filter_sublist ps)) hndP

theorem initCountLoop_conflictFree (rank : Nat) (th : Theater) :
    ∀ (buckets : List (Nat × List String)) (seats : Int) (s : LState),
      lookKeys s.theaters th.id = some (thKeys th) →
      (s.persons.map (fun p => p.id)).Nodup →
      (∀ b ∈ buckets, b.2.Nodup) →
      ConflictFree s → ConflictFree (initCountLoop rank th buckets seats s) := by
  intro buckets
  induction buckets with
  | nil => intro seats s _ _ _ h; simpa [initCountLoop] using h
  | cons b rest ih =>
    intro seats s hth hndP hbk h
    simp only [initCountLoop]
    split
    · exact h
    · split
      · exact ih seats s hth hndP (fun b' hb' => hbk b' (by simp [hb'])) h
      · set cs := initCandidates s.persons s.theaters th rank b.2 with hcs
        set pw := pickWinners cs seats s.g with hpw
        have hcsnd : cs.Nodup := List.Nodup.filter _ (hbk b (by simp))
        have hwnd : pw.1.Nodup := pickWinners_nodup seats s.g hcsnd
        have hcf2 : ConflictFree (assignWinners
            { persons := s.persons, theaters := s.theaters, g := pw.2 } th.id pw.1) := by
          apply assignWinners_conflictFree pw.1
            { persons := s.persons, theaters := s.theaters, g := pw.2 }
            th.id hth hndP hwnd ?_ h
          intro pid hpid p hp hid
          have hc : pid ∈ cs := pickWinners_mem hpid
          rcases initCandidates_spec hc with ⟨p0, hf, _, _, hconf⟩
          have hfp : findPerson s.persons p.id = some p := findPerson_of_nodup hndP hp
          rw [hid, hf] at hfp
          have hp0 : p0 = p := by simpa using hfp
          subst hp0
          left
          intro a ha k hk'
          have hr := not_hasConflict_keys hconf a ha k hk'
          simpa [thKeys] using hr
        have hsigs := assignWinners_sigs
          { persons := s.persons, theaters := s.theaters, g := pw.2 } th.id pw.1
        apply ih _ _ ?_ ?_ (fun b' hb' => hbk b' (by simp [hb'])) hcf2
        · rw [lookKeys_congr hsigs.1]
          exact hth
        · rw [pid_map_eq_of_psig hsigs.2]
          exact hndP

theorem doInitTheater_conflictFree (rank : Nat)
    (snapshot : List (Nat × List String)) (s : LState) (tid : String)
    (hndP : (s.persons.map (fun p => p.id)).Nodup)
    (hbk : ∀ b ∈ snapshot, b.2.Nodup) (h : ConflictFree s) :
    ConflictFree (doInitTheater rank snapshot s tid) := by
  unfold doInitTheater
  cases hf : findTheater s.theaters tid with
  | none => exact h
  | some th =>
    simp only
    split
    · exact h
    · apply initCountLoop_conflictFree rank th snapshot _ s ?_ hndP hbk h
      unfold lookKeys
      rw [(findTheater_some hf).2, hf]
      rfl

theorem doInitRound_conflictFree (rank : Nat) (s : LState)
    (hndP : (s.persons.map (fun p => p.id)).Nodup) (h : ConflictFree s) :
    ConflictFree (doInitRound rank s) ∧
      ((doInitRound rank s).persons.map (fun p => p.id)).Nodup := by
  unfold doInitRound
  exact foldl_pres
    (P := fun s' => ConflictFree s' ∧ (s'.persons.map (fun p => p.id)).Nodup)
    (by
      intro s' tid h'
      refine ⟨doInitTheater_conflictFree rank _ s' tid h'.2
        (snapshotGroups_nodup hndP) h'.1, ?_⟩
      rw [pid_map_eq_of_psig (doInitTheater_sigs rank _ s' tid).2]
      exact h'.2)
    (s.theaters.map (fun th => th.id)) s ⟨h, hndP⟩

theorem initLoopAux_conflictFree :
    ∀ (r rank : Nat) (s : LState),
      (s.persons.map (fun p => p.id)).Nodup → ConflictFree s →
      ConflictFree (initLoopAux rank r s) ∧
        ((initLoopAux rank r s).persons.map (fun p => p.id)).Nodup := by
  intro r
  induction r with
  | zero => intro rank s hndP h; simpa [initLoopAux] using ⟨h, hndP⟩
  | succ r ih =>
    intro rank s hndP h
    simp only [initLoopAux]
    split
    · exact ⟨h, hndP⟩
    · have hr := doInitRound_conflictFree rank s hndP h
      exact ih (rank + 1) (doInitRound rank s) hr.2 hr.1

theorem vacCountLoop_conflictFree (th : Theater) :
    ∀ (buckets : List (Nat × List String)) (seats : Int) (s : LState),
      lookKeys s.theaters th.id = some (thKeys th) →
      (s.persons.map (fun p => p.id)).Nodup →
      (∀ b ∈ buckets, b.2.Nodup) →
      ConflictFree s → ConflictFree (vacCountLoop th buckets seats s) := by
  intro buckets
  induction buckets with
  | nil => intro seats s _ _ _ h; simpa [vacCountLoop] using h
  | cons b rest ih =>
    intro seats s hth hndP hbk h
    simp only [vacCountLoop]
    split
    · exact h
    · split
      · exact ih seats s hth hndP (fun b' hb' => hbk b' (by simp [hb'])) h
      · set es := vacCandidates s.persons s.theaters th b.2 with hes
        set pw := pickWinners es seats s.g with hpw
        have hesnd : es.Nodup := List.Nodup.filter _ (hbk b (by simp))
        have hwnd : pw.1.Nodup := pickWinners_nodup seats s.g hesnd
        have hcf2 : ConflictFree (assignWinners
            { persons := s.persons, theaters := s.theaters, g := pw.2 } th.id pw.1) := by
          apply assignWinners_conflictFree pw.1
            { persons := s.persons, theaters := s.theaters, g := pw.2 }
            th.id hth hndP hwnd ?_ h
          intro pid hpid p hp hid
          have hc : pid ∈ es := pickWinners_mem hpid
          rcases vacCandidates_spec hc with ⟨p0, hf, hconf⟩
          have hfp : findPerson s.persons p.id = some p := findPerson_of_nodup hndP hp
          rw [hid, hf] at hfp
          have hp0 : p0 = p := by simpa using hfp
          subst hp0
          left
          intro a ha k hk'
          have hr := not_hasConflict_keys hconf a ha k hk'
          simpa [thKeys] using hr
        have hsigs := assignWinners_sigs
          { persons := s.persons, theaters := s.theaters, g := pw.2 } th.id pw.1
        apply ih _ _ ?_ ?_ (fun b' hb' => hbk b' (by simp [hb'])) hcf2
        · rw [lookKeys_congr hsigs.1]
          exact hth
        · rw [pid_map_eq_of_psig hsigs.2]
          exact hndP

theorem doVacTheater_conflictFree (vIds : List String) (s : LState)
    (tid : String) (hndP : (s.persons.map (fun p => p.id)).Nodup)
    (h : ConflictFree s) : ConflictFree (doVacTheater vIds s tid) := by
  unfold doVacTheater
  cases hf : findTheater s.theaters tid with
  | none => exact h
  | some th =>
    simp only
    split
    · exact h
    · apply vacCountLoop_conflictFree th _ _ s ?_ hndP (vacSnapshot_nodup hndP) h
      unfold lookKeys
      rw [(findTheater_some hf).2, hf]
      rfl

theorem runVacancyLottery_conflictFree (v : List String) (s : LState)
    (hndP : (s.persons.map (fun p => p.id)).Nodup) (h : ConflictFree s) :
    ConflictFree (runVacancyLottery v s) := by
  unfold runVacancyLottery
  split
  · exact h
  · exact (foldl_pres
      (P := fun s' => ConflictFree s' ∧ (s'.persons.map (fun p => p.id)).Nodup)
      (by
        intro s' tid h'
        refine ⟨doVacTheater_conflictFree v s' tid h'.2 h'.1, ?_⟩
        rw [pid_map_eq_of_psig (doVacTheater_sigs v s' tid).2]
        exact h'.2)
      (s.theaters.map (fun th => th.id)) s ⟨h, hndP⟩).1

/-- C2: starting from applicants with empty wins sets, every candidate is
filtered through `hasConflict` against their live wins immediately before
becoming eligible, so after both passes no applicant's wins contain two
distinct theater ids whose resolved theaters share the time slot or the
play.  Applicant ids are unique, as the program's duplicate check enforces;
no uniqueness of theater ids is needed because conflicts are stated through
the id resolution `lookKeys` the conflict check itself uses. -/
theorem c2_conflict_invariant (m : Nat) (v : List String) (s : LState)
    (hndP : (s.persons.map (fun p => p.id)).Nodup)
    (h0 : ∀ p ∈ s.persons, p.assigned = ([] : List String)) :
    ∀ p ∈ (runVacancyLottery v (runInitialLottery m s)).persons,
      ∀ a ∈ p.assigned, ∀ b ∈ p.assigned, a ≠ b →
        ∀ ka kb,
          lookKeys (runVacancyLottery v (runInitialLottery m s)).theaters a = some ka →
          lookKeys (runVacancyLottery v (runInitialLottery m s)).theaters b = some kb →
          ka.1 ≠ kb.1 ∧ ka.2 ≠ kb.2 := by
  have hcf0 : ConflictFree s := by
    intro p hp
    rw [h0 p hp]
    exact List.Pairwise.nil
  have hinit := initLoopAux_conflictFree m 0 s hndP hcf0
  have hfin : ConflictFree (runVacancyLottery v (runInitialLottery m s)) :=
    runVacancyLottery_conflictFree v (runInitialLottery m s) hinit.2 hinit.1
  intro p hp a ha b hb hne ka kb hka hkb
  exact List.Pairwise.forall (keysOk_symm _) (hfin p hp) ha hb hne ka kb hka hkb

/-- Witness for C2: one applicant winning two compatible theaters; the
resolved keys of the two wins differ in both components. -/
theorem c2_conflict_invariant_witness :
    ("t1", "x").1 ≠ ("t2", "y").1 ∧ ("t1", "x").2 ≠ ("t2", "y").2 :=
  c2_conflict_invariant 2 [] 
    { persons := [{ id := "P1", prefs := [some "R1", some "R2"], assigned := [] }],
      theaters := [{ id := "R1", timeSlot := "t1", play := "x", capacity := 1, assigned := [] },
                   { id := "R2", timeSlot := "t2", play := "y", capacity := 1, assigned := [] }],
      g := xsInit 1 }
    (by decide) (by decide)
    { id := "P1", prefs := [some "R1", some "R2"], assigned := ["R1", "R2"] }
    (by decide) "R1" (by decide) "R2" (by decide) (by decide)
    ("t1", "x") ("t2", "y") (by decide) (by decide)

/-! ### C10: one win per round, at most `maxOrders` wins overall -/

theorem psig_eq_parts {a b : Person} (h : psigF a = psigF b) :
    a.id = b.id ∧ a.prefs = b.prefs := by
  simpa [psigF, Prod.mk.injEq] using h

/-- Evolution of one person over a single round: either untouched, or
exactly the theater listed at the round's rank was appended. -/
def roundRel (rank : Nat) (po pn : Person) : Prop :=
  psigF po = psigF pn ∧
    (pn.assigned = po.assigned ∨
      ∃ t, po.prefs.getD rank none = some t ∧ pn.assigned = po.assigned ++ [t])

theorem assignOne_round {rank : Nat} {old : List Person} {s : LState}
    {tid pid : String}
    (hre : List.Forall₂ (roundRel rank) old s.persons)
    (helig : ∀ p ∈ s.persons, p.id = pid →
      (p.prefs.getD rank none = some tid ∧ tid ∉ p.assigned)) :
    List.Forall₂ (roundRel rank) old (assignOne s tid pid).persons := by
  have hstep : List.Forall₂ (fun pn pn' => psigF pn = psigF pn' ∧
      (pn' = pn ∨ (pn.prefs.getD rank none = some tid ∧ tid ∉ pn.assigned ∧
        pn'.assigned = pn.assigned ++ [tid])))
      s.persons (assignOne s tid pid).persons := by
    unfold assignOne updatePerson
    simp only
    apply forall₂_map_right_self
    intro p hp
    by_cases hm : (p.id == pid) = true
    · have he := helig p hp (by simpa using hm)
      refine ⟨by simp [hm, psigF], Or.inr ⟨he.1, he.2, ?_⟩⟩
      simp only [hm, if_pos]
      exact jsSetAdd_of_not_mem he.2
    · have hm2 : (p.id == pid) = false := by simpa using hm
      exact ⟨by simp [hm2, psigF], Or.inl (by simp [hm2])⟩
  refine forall₂_comp ?_ hre hstep
  intro po pn pn' hab hbc
  refine ⟨hab.1.trans hbc.1, ?_⟩
  rcases hbc.2 with rfl | ⟨hpref, hnot, happ⟩
  · exact hab.2
  · have hprefs : po.prefs = pn.prefs := (psig_eq_parts hab.1).2
    rcases hab.2 with heq | ⟨t, hpo, ht⟩
    · right
      exact ⟨tid, by rw [hprefs]; exact hpref, by rw [happ, heq]⟩
    · exfalso
      have : t = tid := by
        rw [hprefs] at hpo
        rw [hpo] at hpref
        simpa using hpref
      subst this
      exact hnot (by rw [ht]; simp)

theorem assignWinners_round {rank : Nat} {old : List Person} :
    ∀ (ws : List String) (s : LState) (tid : String),
      ws.Nodup →
      (∀ pid ∈ ws, ∀ p ∈ s.persons, p.id = pid →
        (p.prefs.getD rank none = some tid ∧ tid ∉ p.assigned)) →
      List.Forall₂ (roundRel rank) old s.persons →
      List.Forall₂ (roundRel rank) old (assignWinners s tid ws).persons := by
  intro ws
  induction ws with
  | nil => intro s tid _ _ h; exact h
  | cons pid rest ih =>
    intro s tid hws helig h
    rw [assignWinners_cons]
    have hnc := List.nodup_cons.mp hws
    apply ih (assignOne s tid pid) tid hnc.2 ?_
      (assignOne_round h (fun p hp hid => helig pid (by simp) p hp hid))
    intro pid' hpid' p' hp' hid'
    have hne : pid' ≠ pid := fun hc => hnc.1 (hc ▸ hpid')
    rcases assignOne_person_mem hp' with ⟨p'', hp'', hideq, hunch, _, _⟩
    have hp'eq : p' = p'' := hunch (by rw [← hideq, hid']; exact hne)
    rw [hp'eq]
    exact helig pid' (by simp [hpid']) p'' hp'' (by rw [← hp'eq]; exact hid')

theorem initCountLoop_round {rank : Nat} {old : List Person} (th : Theater) :
    ∀ (buckets : List (Nat × List String)) (seats : Int) (s : LState),
      (s.persons.map (fun p => p.id)).Nodup →
      (∀ b ∈ buckets, b.2.Nodup) →
      List.Forall₂ (roundRel rank) old s.persons →
      List.Forall₂ (roundRel rank) old (initCountLoop rank th buckets seats s).persons := by
  intro buckets
  induction buckets with
  | nil => intro seats s _ _ h; simpa [initCountLoop] using h
  | cons b rest ih =>
    intro seats s hndP hbk h
    simp only [initCountLoop]
    split
    · exact h
    · split
      · exact ih seats s hndP (fun b' hb' => hbk b' (by simp [hb'])) h
      · set cs := initCandidates s.persons s.theaters th rank b.2 with hcs
        set pw := pickWinners cs seats s.g with hpw
        have hcsnd : cs.Nodup := List.Nodup.filter _ (hbk b (by simp))
        have hwnd : pw.1.Nodup := pickWinners_nodup seats s.g hcsnd
        have hstep : List.Forall₂ (roundRel rank) old (assignWinners
            { persons := s.persons, theaters := s.theaters, g := pw.2 } th.id pw.1).persons := by
          apply assignWinners_round pw.1
            { persons := s.persons, theaters := s.theaters, g := pw.2 } th.id hwnd ?_ h
          intro pid hpid p hp hid
          have hc : pid ∈ cs := pickWinners_mem hpid
          rcases initCandidates_spec hc with ⟨p0, hf, hpref, hnot, _⟩
          have hfp : findPerson s.persons p.id = some p := findPerson_of_nodup hndP hp
          rw [hid, hf] at hfp
          have hp0 : p0 = p := by simpa using hfp
          subst hp0
          exact ⟨hpref, hnot⟩
        have hsigs := assignWinners_sigs
          { persons := s.persons, theaters := s.theaters, g := pw.2 } th.id pw.1
        apply ih _ _ ?_ (fun b' hb' => hbk b' (by simp [hb'])) hstep
        rw [pid_map_eq_of_psig hsigs.2]
        exact hndP

theorem doInitTheater_round {rank : Nat} {old : List Person}
    (snapshot : List (Nat × List String)) (s : LState) (tid : String)
    (hndP : (s.persons.map (fun p => p.id)).Nodup)
    (hbk : ∀ b ∈ snapshot, b.2.Nodup)
    (h : List.Forall₂ (roundRel rank) old s.persons) :
    List.Forall₂ (roundRel rank) old (doInitTheater rank snapshot s tid).persons := by
  unfold doInitTheater
  cases hf : findTheater s.theaters tid with
  | none => exact h
  | some th =>
    simp only
    split
    · exact h
    · exact initCountLoop_round th snapshot _ s hndP hbk h

theorem doInitRound_round (rank : Nat) (s : LState)
    (hndP : (s.persons.map (fun p => p.id)).Nodup) :
    List.Forall₂ (roundRel rank) s.persons (doInitRound rank s).persons ∧
      ((doInitRound rank s).persons.map (fun p => p.id)).Nodup := by
  unfold doInitRound
  exact foldl_pres
    (P := fun s' => List.Forall₂ (roundRel rank) s.persons s'.persons ∧
      (s'.persons.map (fun p => p.id)).Nodup)
    (by
      intro s' tid h'
      refine ⟨doInitTheater_round _ s' tid h'.2 (snapshotGroups_nodup hndP) h'.1, ?_⟩
      rw [pid_map_eq_of_psig (doInitTheater_sigs rank _ s' tid).2]
      exact h'.2)
    (s.theaters.map (fun th => th.id)) s
    ⟨forall₂_self (fun a _ => ⟨rfl, Or.inl rfl⟩), hndP⟩

/-- Cumulative length evolution: after `n` rounds at most `n` new wins. -/
def lenRel (n : Nat) (po pn : Person) : Prop :=
  psigF po = psigF pn ∧ pn.assigned.length ≤ po.assigned.length + n

theorem roundRel_len {rank : Nat} {po pn : Person} (h : roundRel rank po pn) :
    lenRel 1 po pn := by
  refine ⟨h.1, ?_⟩
  rcases h.2 with heq | ⟨t, _, happ⟩
  · rw [heq]; omega
  · rw [happ]; simp

theorem initLoopAux_len :
    ∀ (r rank : Nat) (s : LState),
      (s.persons.map (fun p => p.id)).Nodup →
      List.Forall₂ (lenRel r) s.persons (initLoopAux rank r s).persons ∧
        ((initLoopAux rank r s).persons.map (fun p => p.id)).Nodup := by
  intro r
  induction r with
  | zero =>
    intro rank s hndP
    simp only [initLoopAux]
    exact ⟨forall₂_self (fun a _ => ⟨rfl, by omega⟩), hndP⟩
  | succ r ih =>
    intro rank s hndP
    simp only [initLoopAux]
    split
    · exact ⟨forall₂_self (fun a _ => ⟨rfl, by omega⟩), hndP⟩
    · have hr := doInitRound_round rank s hndP
      have h1 : List.Forall₂ (lenRel 1) s.persons (doInitRound rank s).persons :=
        hr.1.imp (fun a b h => roundRel_len h)
      have hi := ih (rank + 1) (doInitRound rank s) hr.2
      refine ⟨forall₂_comp ?_ h1 hi.1, hi.2⟩
      intro a b c hab hbc
      refine ⟨hab.1.trans hbc.1, ?_⟩
      have := hab.2
      have := hbc.2
      omega

/-- C10: in each round of the initial lottery every applicant wins at most
one theater — across a round a person's wins are either unchanged or grow by
exactly the single theater their preference names at the round's rank — and
consequently, starting from empty wins, after `runInitialLottery` every
applicant holds at most `maxOrders` wins.  Applicant ids are unique, as the
duplicate check enforces. -/
theorem c10_one_win_per_round (m : Nat) (s : LState)
    (hndP : (s.persons.map (fun p => p.id)).Nodup)
    (h0 : ∀ p ∈ s.persons, p.assigned = ([] : List String)) :
    (∀ (rank : Nat) (s' : LState), (s'.persons.map (fun p => p.id)).Nodup →
      List.Forall₂ (fun po pn => psigF po = psigF pn ∧
          (pn.assigned = po.assigned ∨ ∃ t, po.prefs.getD rank none = some t ∧
            pn.assigned = po.assigned ++ [t]))
        s'.persons (doInitRound rank s').persons) ∧
    (∀ p ∈ (runInitialLottery m s).persons, p.assigned.length ≤ m) := by
  constructor
  · intro rank s' hndP'
    exact (doInitRound_round rank s' hndP').1
  · intro p hp
    have hlen := (initLoopAux_len m 0 s hndP).1
    rcases forall₂_mem_right hlen p hp with ⟨po, hpo, hrel⟩
    have hb := hrel.2
    rw [h0 po hpo] at hb
    simpa using hb

/-- Witness for C10: two rounds over three theaters. -/
theorem c10_one_win_per_round_witness :
    ((runInitialLottery 2
        { persons := [{ id := "P1", prefs := [some "R1", some "R2"], assigned := [] },
                      { id := "P2", prefs := [some "R1", some "R3"], assigned := [] }],
          theaters := [{ id := "R1", timeSlot := "t1", play := "x", capacity := 1, assigned := [] },
                       { id := "R2", timeSlot := "t2", play := "y", capacity := 1, assigned := [] },
                       { id := "R3", timeSlot := "t3", play := "z", capacity := 1, assigned := [] }],
          g := xsInit 9 }).persons.all (fun p =>
      decide (p.assigned.length ≤ 2))) = true := by
  rw [List.all_eq_true]
  intro p hp
  exact decide_eq_true ((c10_one_win_per_round 2 _ (by decide) (by decide)).2 p hp)
